import Mathlib

/-!
# Verification of the `HistogramMarker` plugin

Shallow embedding of `src/histogram_marker.py` (class `HistogramMarker`
with operations `compute`, `store`, `_fit_transform`).  Numpy float
arrays are modelled as lists of rationals; the numpy histogram routine
called at `histogram_marker.py:126` is modelled exactly (equal-width
bins between the observed min and max of the data, half-open bins with
the rightmost edge inclusive).  External collaborators of the host
framework (`get_mask`, `NiftiMasker`, the storage interface, the
metadata-update helper of the marker base class) are modelled from the
specification's description of them, since their code is not part of
this repository.
-/

namespace HistogramMarkerModel

/-! ## The numpy histogram routine, over exact rationals

`np.histogram(data, bins=b)` with no explicit range:
the range is `(min data, max data)` (widened by 1/2 on each side when
they coincide, and `(0, 1)` for empty data), the `b+1` edges are
equally spaced over that range, and each value is counted in bin
`floor ((x - first) * b / (last - first))`, except that values at the
last edge fall in the last bin. -/
/-- Minimum of a list of rationals, numpy-style (0 for the empty list,
which numpy never consults because it special-cases empty data). -/
def dataMin : List ℚ → ℚ
  | [] => 0
  | x :: xs => xs.foldl min x

/-- Maximum of a list of rationals, numpy-style. -/
def dataMax : List ℚ → ℚ
  | [] => 0
  | x :: xs => xs.foldl max x

/-- The `(first_edge, last_edge)` range numpy derives from the data:
`(0, 1)` for empty data; the observed min/max, widened by 1/2 each way
when all values are equal. -/
def histRange (data : List ℚ) : ℚ × ℚ :=
  match data with
  | [] => (0, 1)
  | _ :: _ =>
    if dataMin data = dataMax data then (dataMin data - 1/2, dataMax data + 1/2)
    else (dataMin data, dataMax data)

/-- The bin a value `x` falls into among `bins` equal-width bins over
`[first, last]`: bins are half-open `[e_i, e_(i+1))` except the last,
which also contains `last` itself. -/
def binIndex (first last : ℚ) (bins : ℕ) (x : ℚ) : ℕ :=
  if last ≤ x then bins - 1
  else (Int.floor ((x - first) * bins / (last - first))).toNat

/-- The histogram counts: entry `i` counts the data values whose bin is
`i`. -/
def histCounts (data : List ℚ) (bins : ℕ) : List ℕ :=
  (List.range bins).map
    (fun i =>
      (data.filter
        (fun x => binIndex (histRange data).1 (histRange data).2 bins x = i)).length)

/-- The `bins + 1` equally spaced bin edges over the derived range
(`np.linspace(first_edge, last_edge, bins + 1)`). -/
def binEdges (data : List ℚ) (bins : ℕ) : List ℚ :=
  (List.range (bins + 1)).map
    (fun i : ℕ =>
      (histRange data).1 + ((histRange data).2 - (histRange data).1) * (i : ℚ) / bins)

/-- `np.histogram(data, bins)`: the pair of counts and edges, as
unpacked at `histogram_marker.py:126`. -/
def npHistogram (data : List ℚ) (bins : ℕ) : List ℕ × List ℚ :=
  (histCounts data bins, binEdges data bins)

/-! ### Basic length facts -/
/-! ## Images, masks and the external collaborators

The input record of `compute` (`histogram_marker.py:103`) carries an
image-like object under key `data`; the image exposes a voxel array
(`get_fdata()`) and a spatial affine (`t_input_img.affine`). -/
/-- A volumetric image: a 3-D voxel array plus a spatial affine. -/
structure NiftiImage where
  voxelData : List (List (List ℚ))
  affine : List (List ℚ)

/-- `img.get_fdata().ravel()` (`histogram_marker.py:122`): the voxel
array flattened to 1-D in row-major order. -/
def NiftiImage.getFdataRavel (img : NiftiImage) : List ℚ :=
  (img.voxelData.map List.flatten).flatten

/-- The total number of voxels of the image (the number of scalar
entries of its 3-D voxel array). -/
def NiftiImage.voxelCount (img : NiftiImage) : ℕ :=
  (img.voxelData.map (fun plane => (plane.map List.length).sum)).sum

/-- A mask specification (`self.masks`); the spec allows a string, a
mapping or a sequence of these — the marker only passes it through to
the external resolver, so the model keeps it opaque as a string. -/
structure MaskSpec where
  spec : String

/-- Modelled from the spec: a mask image as returned by the host
framework's mask-resolution utility — a boolean in-mask indicator per
voxel of the source image's grid. -/
structure MaskImage where
  inMask : List Bool

/-- The number of in-mask voxels of a mask image. -/
def MaskImage.inMaskCount (mask : MaskImage) : ℕ :=
  mask.inMask.countP (fun b => b)

/-- The input record of `compute`: the `data` entry (the source
image).  (The `meta` entry is handled at the `_fit_transform` level.) -/
structure MarkerInput where
  data : NiftiImage

/-- `NiftiMasker(mask_img, target_affine=...)`
(`histogram_marker.py:117`): the masking utility, configured with a
mask image and a target affine. -/
structure NiftiMaskerConfig where
  mask_img : MaskImage
  target_affine : List (List ℚ)

/-- Keep the values at the in-mask positions. -/
def applyMask (mask : List Bool) (vox : List ℚ) : List ℚ :=
  ((vox.zip mask).filter (fun p => p.2)).map Prod.fst

/-- Modelled from the spec: `masker.fit_transform(t_input_img)`
(`histogram_marker.py:118`) — the external masking utility applies the
mask image to the source image and returns the in-mask voxel values
(already 1-D; the subsequent `.ravel()` is the identity on it). -/
def niftiMaskerFitTransform (masker : NiftiMaskerConfig)
    (img : NiftiImage) : List ℚ :=
  applyMask masker.mask_img.inMask img.getFdataRavel

/-- The external environment of `compute`: the host framework's
mask-resolution utility `get_mask(masks, target_data, extra_input)`
(`histogram_marker.py:111`), modelled from the spec as an uninterpreted
function returning a mask image.  `ε` is the type of the optional
`extra_input` record. -/
structure Env (ε : Type) where
  get_mask : MaskSpec → MarkerInput → Option ε → MaskImage

/-! ## The marker and its `compute` operation -/
/-- The `HistogramMarker` instance state set by `__init__`
(`histogram_marker.py:38`): the bin count, the marker name and the
optional mask specification.  `BaseMarker.__init__` is called with
`on="VBM_GM"`, so `self._on = ["VBM_GM"]`. -/
structure HistogramMarker where
  bins : ℕ
  name : String
  masks : Option MaskSpec

/-- `self._on`, fixed by `super().__init__(on="VBM_GM", name=name)`. -/
def HistogramMarker.on (_ : HistogramMarker) : List String := ["VBM_GM"]

/-- `get_valid_inputs` (`histogram_marker.py:48`). -/
def HistogramMarker.get_valid_inputs (_ : HistogramMarker) : List String :=
  ["VBM_GM"]

/-- `get_output_type` (`histogram_marker.py:59`). -/
def HistogramMarker.get_output_type (_ : HistogramMarker)
    (input_type : String) : String := "vector"

/-- The payload of one entry of `compute`'s output dictionary: the
`hist` counts (an integer array) or the `bin_edges` (a float array). -/
inductive FeatureData where
  | counts : List ℕ → FeatureData
  | edges : List ℚ → FeatureData
deriving DecidableEq

/-- The `.size` of the underlying numpy array. -/
def FeatureData.size : FeatureData → ℕ
  | .counts l => l.length
  | .edges l => l.length

/-- One entry of `compute`'s output: the array plus
`col_names = list(range(arr.size))`. -/
structure FeatureEntry where
  data : FeatureData
  col_names : List ℕ
deriving DecidableEq

/-- The output dictionary literal of `compute`
(`histogram_marker.py:132`), built from the flattened data and the
configured bin count. -/
def computeOutputDict (bins : ℕ) (data : List ℚ) :
    List (String × FeatureEntry) :=
  [("hist",
    { data := .counts (npHistogram data bins).1,
      col_names := List.range (npHistogram data bins).1.length }),
   ("bin_edges",
    { data := .edges (npHistogram data bins).2,
      col_names := List.range (npHistogram data bins).2.length })]

/-- The observable effects of one `compute` call: the diagnostic log
messages, whether the unconditional `breakpoint()` at
`histogram_marker.py:110` was executed, the call made to the external
`get_mask` utility, the masking-utility configuration used, and the
flattened 1-D array the histogram was computed over. -/
structure ComputeEffects (ε : Type) where
  logs : List String
  breakpointHit : Bool
  getMaskCall : Option (MaskSpec × MarkerInput × Option ε)
  maskerUsed : Option NiftiMaskerConfig
  dataUsed : List ℚ

/-- `HistogramMarker.compute` (`histogram_marker.py:75`): pick the
flattened data (masked when `self.masks` is configured, the raw raveled
voxel array otherwise), compute `np.histogram(data, bins=self.bins)`,
and return the two-entry output dictionary.  The effects record keeps
the side channel (logging, the breakpoint, the collaborator calls). -/
def HistogramMarker.compute {ε : Type} (m : HistogramMarker) (env : Env ε)
    (input : MarkerInput) (extra_input : Option ε) :
    List (String × FeatureEntry) × ComputeEffects ε :=
  match m.masks with
  | some masks =>
    (computeOutputDict m.bins
      (niftiMaskerFitTransform
        ⟨env.get_mask masks input extra_input, input.data.affine⟩ input.data),
     { logs := ["Computing histogram", "Masking with " ++ masks.spec,
                "Masking", "computed masks"],
       breakpointHit := true,
       getMaskCall := some (masks, input, extra_input),
       maskerUsed :=
         some ⟨env.get_mask masks input extra_input, input.data.affine⟩,
       dataUsed :=
         niftiMaskerFitTransform
           ⟨env.get_mask masks input extra_input, input.data.affine⟩
           input.data })
  | none =>
    (computeOutputDict m.bins input.data.getFdataRavel,
     { logs := ["Computing histogram", "computed masks"],
       breakpointHit := false,
       getMaskCall := none,
       maskerUsed := none,
       dataUsed := input.data.getFdataRavel })

/-! ## Concrete example inputs -/
/-- The synthetic 2×2×2 volume with voxel values `[1,2,3,4,5,6,7,8]`
used by the spec's worked example. -/
def exampleImage : NiftiImage :=
  { voxelData := [[[1, 2], [3, 4]], [[5, 6], [7, 8]]],
    affine := [[1, 0, 0, 0], [0, 1, 0, 0], [0, 0, 1, 0], [0, 0, 0, 1]] }

/-- The example input record. -/
def exampleInput : MarkerInput := { data := exampleImage }

/-- A marker with 4 bins and no mask configured. -/
def exampleMarker : HistogramMarker :=
  { bins := 4, name := "VBM_GM_HistogramMarker", masks := none }

/-- A marker with a mask specification configured. -/
def exampleMaskedMarker : HistogramMarker :=
  { bins := 4, name := "VBM_GM_HistogramMarker",
    masks := some { spec := "GM_prob0.2" } }

/-- An environment whose mask-resolution utility returns a fixed mask
with 3 of the 8 voxels in-mask. -/
def exampleEnv : Env Unit :=
  { get_mask := fun _ _ _ =>
      { inMask := [true, false, true, true, false, false, false, false] } }

/-- An arithmetic progression of `n` equally spaced points. -/
def arithProgression (start step : ℚ) (n : ℕ) : List ℚ :=
  (List.range n).map (fun i : ℕ => start + step * (i : ℚ))

/-! ## A model of the Python object graph

`store` and `_fit_transform` manipulate Python dictionaries by
reference: `input.copy()` shares the entry values, `deepcopy` does not,
and in-place updates (`d[k] = v`, `d.pop(k)`) act on one object
identity.  The model gives every dict node an identity (its `id()`);
atoms (numbers, strings, numpy arrays, images) are immutable.  Each
in-place update performed by the code is recorded as a `Mut` naming the
identity of the object it was applied to, so that the frame claims
("the input is never mutated", "output metadata is independent of input
metadata") can be stated as: replaying the recorded mutations on the
input leaves it unchanged, and the identity sets are disjoint. -/
/-- Immutable Python leaf values. -/
inductive Atom where
  | aStr : String → Atom
  | aInt : ℤ → Atom
  | aCounts : List ℕ → Atom
  | aEdges : List ℚ → Atom
  | aCols : List ℕ → Atom
  | aImg : NiftiImage → Atom

mutual
/-- A Python value: an immutable atom, or a dict with an object
identity and entries in insertion order. -/
inductive PyVal where
  | atom : Atom → PyVal
  | dict : ℕ → PyEntries → PyVal

/-- Dict entries in insertion order. -/
inductive PyEntries where
  | nil : PyEntries
  | cons : String → PyVal → PyEntries → PyEntries
end

mutual
/-- The object identities occurring in a value. -/
def PyVal.ids : PyVal → List ℕ
  | .atom _ => []
  | .dict i es => i :: es.ids

def PyEntries.ids : PyEntries → List ℕ
  | .nil => []
  | .cons _ v es => v.ids ++ es.ids
end

/-- `d[k] = v` on one dict's entries: replace in place if the key
exists, append otherwise (Python dict update semantics). -/
def dictSet : PyEntries → String → PyVal → PyEntries
  | .nil, k, v => .cons k v .nil
  | .cons k0 v0 es, k, v =>
    if k0 = k then .cons k0 v es else .cons k0 v0 (dictSet es k v)

/-- `d.pop(k)` on one dict's entries. -/
def dictPop : PyEntries → String → PyEntries
  | .nil, _ => .nil
  | .cons k0 v0 es, k => if k0 = k then es else .cons k0 v0 (dictPop es k)

/-- Key lookup among entries. -/
def PyEntries.get : PyEntries → String → Option PyVal
  | .nil, _ => none
  | .cons k0 v0 es, k => if k0 = k then some v0 else es.get k

/-- `d[k]` on a value (dicts only). -/
def PyVal.get : PyVal → String → Option PyVal
  | .atom _, _ => none
  | .dict _ es, k => es.get k

/-- The object identity of a dict (0 for atoms, never used on them). -/
def PyVal.rootId : PyVal → ℕ
  | .atom _ => 0
  | .dict i _ => i

/-- The entries of a dict (empty for atoms, never used on them). -/
def PyVal.entries : PyVal → PyEntries
  | .atom _ => .nil
  | .dict _ es => es

mutual
/-- `copy.deepcopy`: fresh identities for every dict node reached,
atoms shared (immutable).  Threads an allocation counter; every fresh
identity is taken at or above the counter passed in. -/
def deepcopy : PyVal → ℕ → PyVal × ℕ
  | .atom a, c => (.atom a, c)
  | .dict _ es, c =>
    let r := deepcopyE es (c + 1)
    (.dict c r.1, r.2)

def deepcopyE : PyEntries → ℕ → PyEntries × ℕ
  | .nil, c => (.nil, c)
  | .cons k v es, c =>
    let rv := deepcopy v c
    let re := deepcopyE es rv.2
    (.cons k rv.1 re.1, re.2)
end

mutual
/-- In-place update `d[k] = w` applied to every dict aliasing the
identity `target` (mutating an object updates it wherever it is
shared). -/
def setAt (target : ℕ) (key : String) (w : PyVal) : PyVal → PyVal
  | .atom a => .atom a
  | .dict i es =>
    if i = target then .dict i (dictSet (setAtE target key w es) key w)
    else .dict i (setAtE target key w es)

def setAtE (target : ℕ) (key : String) (w : PyVal) : PyEntries → PyEntries
  | .nil => .nil
  | .cons k v es => .cons k (setAt target key w v) (setAtE target key w es)
end

mutual
/-- In-place `d.pop(k)` applied to every dict aliasing `target`. -/
def popAt (target : ℕ) (key : String) : PyVal → PyVal
  | .atom a => .atom a
  | .dict i es =>
    if i = target then .dict i (dictPop (popAtE target key es) key)
    else .dict i (popAtE target key es)

def popAtE (target : ℕ) (key : String) : PyEntries → PyEntries
  | .nil => .nil
  | .cons k v es => .cons k (popAt target key v) (popAtE target key es)
end

mutual
/-- A Python value with identities forgotten: what `==` compares. -/
inductive PureVal where
  | atom : Atom → PureVal
  | dict : PureEntries → PureVal

inductive PureEntries where
  | nil : PureEntries
  | cons : String → PureVal → PureEntries → PureEntries
end

mutual
/-- Forget the object identities. -/
def PyVal.toPure : PyVal → PureVal
  | .atom a => .atom a
  | .dict _ es => .dict es.toPure

def PyEntries.toPure : PyEntries → PureEntries
  | .nil => .nil
  | .cons k v es => .cons k v.toPure es.toPure
end

/-- `dictSet` at the identity-free level. -/
def dictSetP : PureEntries → String → PureVal → PureEntries
  | .nil, k, v => .cons k v .nil
  | .cons k0 v0 es, k, v =>
    if k0 = k then .cons k0 v es else .cons k0 v0 (dictSetP es k v)

/-- One recorded in-place mutation: the identity of the object it was
applied to, and what was done. -/
inductive Mut where
  | set : ℕ → String → PyVal → Mut
  | pop : ℕ → String → Mut

/-- The identity of the object a mutation was applied to. -/
def Mut.target : Mut → ℕ
  | .set t _ _ => t
  | .pop t _ => t

/-- Replay one recorded mutation against a value. -/
def applyMut (v : PyVal) : Mut → PyVal
  | .set t k w => setAt t k w v
  | .pop t k => popAt t k v

/-- Replay a list of recorded mutations in order. -/
def applyMuts (v : PyVal) (ms : List Mut) : PyVal := ms.foldl applyMut v

/-! ## The `store` operation -/
/-- One call received by the external storage collaborator:
`storage.store(kind=output_type, **out)` — the kind tag plus the
entries of `out` unpacked as keyword arguments. -/
structure StoreCall where
  kind : String
  payload : PyEntries

/-- `HistogramMarker.store` (`histogram_marker.py:143`): the feature
name must be `hist` or `bin_edges`, otherwise `raise_error` raises a
`ValueError` (modelled as the error branch, surfaced to the caller);
on success the data is forwarded to the storage collaborator with
`kind="vector"`. -/
def HistogramMarker.store (_ : HistogramMarker) (type_ feature : String)
    (out : PyVal) (storage : List StoreCall) :
    Except String (List StoreCall) := do
  let output_type ←
    if feature = "hist" ∨ feature = "bin_edges" then pure "vector"
    else Except.error ("Unknown feature: " ++ feature)
  pure (storage ++ [{ kind := output_type, payload := out.entries }])

/-! ## `_fit_transform` at the Python-object level -/
/-- The `hist`/`bin_edges` arrays as Python atoms. -/
def FeatureData.toAtom : FeatureData → Atom
  | .counts l => .aCounts l
  | .edges l => .aEdges l

/-- The entries of one inner dict of `compute`'s output literal. -/
def featureEntries (fe : FeatureEntry) : PyEntries :=
  .cons "data" (.atom fe.data.toAtom)
    (.cons "col_names" (.atom (.aCols fe.col_names)) .nil)

/-- One inner dict of `compute`'s output literal
(`histogram_marker.py:133` and `:137`), allocated at identity `i`. -/
def featureEntryPy (i : ℕ) (fe : FeatureEntry) : PyVal :=
  .dict i (featureEntries fe)

/-- The entries of `compute`'s output dict, the inner dicts taking
consecutive fresh identities from `c`. -/
def outEntriesPy (c : ℕ) : List (String × FeatureEntry) → PyEntries
  | [] => .nil
  | (k, fe) :: rest => .cons k (featureEntryPy c fe) (outEntriesPy (c + 1) rest)

/-- `compute` at the Python-object level: read `input["data"]`
(`histogram_marker.py:103`), run the computation, and build the output
dict literal (two fresh inner dicts and a fresh outer dict). -/
def computePy (m : HistogramMarker) (env : Env PyVal) (t_input : PyVal)
    (extra_input : Option PyVal) (c : ℕ) :
    Except String (PyVal × ℕ × ComputeEffects PyVal) :=
  match t_input.get "data" with
  | some (.atom (.aImg img)) =>
    let r := m.compute env { data := img } extra_input
    .ok (.dict (c + r.1.length) (outEntriesPy c r.1), c + r.1.length + 1, r.2)
  | _ => .error "KeyError: data"

/-- The observable side channel of one `_fit_transform` call: the
allocation counter for fresh object identities, the in-place mutations
in execution order, the calls made to the storage collaborator, and the
`(input, extra_input)` pairs `compute` was invoked with. -/
structure FTState where
  ctr : ℕ
  muts : List Mut
  stores : List StoreCall
  computeCalls : List (PyVal × PyVal)

/-- Modelled from the spec: the base-marker metadata-update helper
`self.update_meta(feature_data_copy, "marker")`
(`histogram_marker.py:221`) attaches a fresh dict of marker-specific
metadata — including the marker's `name` — under the `"marker"` key of
the object's `"meta"` dict. -/
def updateMetaMarkerDict (m : HistogramMarker) (i : ℕ) : PyVal :=
  .dict i (.cons "name" (.atom (.aStr m.name))
    (.cons "class" (.atom (.aStr "HistogramMarker")) .nil))

/-- The body of the feature loop of `_fit_transform`
(`histogram_marker.py:214`): deep-copy the feature data, attach a deep
copy of the per-type metadata under `"meta"`, run the metadata-update
helper, suffix the feature name onto the marker metadata name, then
either store the feature or accumulate it under `out[type_]`. -/
def processFeature (m : HistogramMarker) (type_ : String) (storage : Bool)
    (t_meta : PyVal) (feature_name : String) (feature_data : PyVal)
    (out : PyVal) (st : FTState) : Except String (PyVal × FTState) :=
  let r1 := deepcopy feature_data st.ctr
  let fdc0 := r1.1
  let r2 := deepcopy t_meta r1.2
  let fdc1 := setAt fdc0.rootId "meta" r2.1 fdc0
  let markerD := updateMetaMarkerDict m r2.2
  let fdc2 := setAt r2.1.rootId "marker" markerD fdc1
  match (fdc2.get "meta").bind (fun mv => (mv.get "marker").bind
      (fun md => md.get "name")) with
  | some (.atom (.aStr n)) =>
    let fdc3 := setAt markerD.rootId "name"
      (.atom (.aStr (n ++ "_" ++ feature_name))) fdc2
    let st1 : FTState :=
      { ctr := r2.2 + 1,
        muts := st.muts ++
          [.set fdc0.rootId "meta" r2.1,
           .set r2.1.rootId "marker" markerD,
           .set markerD.rootId "name"
             (.atom (.aStr (n ++ "_" ++ feature_name)))],
        stores := st.stores, computeCalls := st.computeCalls }
    if storage then
      (m.store type_ feature_name fdc3 st1.stores).map
        (fun calls => (out, { st1 with stores := calls }))
    else
      match out.get type_ with
      | some inner =>
        .ok (setAt inner.rootId feature_name fdc3 out,
          { st1 with
            muts := st1.muts ++ [.set inner.rootId feature_name fdc3] })
      | none => .error "KeyError: type"
  | _ => .error "KeyError: name"

/-- The feature loop of `_fit_transform`, over the entries of
`compute`'s output. -/
def processFeatures (m : HistogramMarker) (type_ : String) (storage : Bool)
    (t_meta : PyVal) : PyEntries → PyVal → FTState →
    Except String (PyVal × FTState)
  | .nil, out, st => .ok (out, st)
  | .cons k v es, out, st =>
    (processFeature m type_ storage t_meta k v out st).bind
      (fun r => processFeatures m type_ storage t_meta es r.1 r.2)

/-- One iteration of the type loop of `_fit_transform`
(`histogram_marker.py:199`): skip absent types; otherwise pop the
current type from a shallow copy of the input, shallow-copy the
per-type metadata and add its `type` tag, invoke `compute`, create
`out[type_] = {}` when no storage was given, and run the feature
loop. -/
def processType (m : HistogramMarker) (env : Env PyVal) (storage : Bool)
    (input : PyVal) (type_ : String) (out : PyVal) (st : FTState) :
    Except String (PyVal × FTState) :=
  match input.get type_ with
  | none => .ok (out, st)
  | some t_input =>
    let extra0 : PyVal := .dict st.ctr input.entries
    let extra_input := popAt st.ctr type_ extra0
    match t_input.get "meta" with
    | some (.dict _ mes) =>
      let t_meta0 : PyVal := .dict (st.ctr + 1) mes
      let t_meta := setAt (st.ctr + 1) "type" (.atom (.aStr type_)) t_meta0
      match computePy m env t_input (some extra_input) (st.ctr + 2) with
      | .error e => .error e
      | .ok (t_out, c2, _eff) =>
        let st1 : FTState :=
          { ctr := c2,
            muts := st.muts ++
              [.pop st.ctr type_,
               .set (st.ctr + 1) "type" (.atom (.aStr type_))],
            stores := st.stores,
            computeCalls := st.computeCalls ++ [(t_input, extra_input)] }
        if storage then
          processFeatures m type_ storage t_meta t_out.entries out st1
        else
          let inner : PyVal := .dict st1.ctr .nil
          let out1 := setAt out.rootId type_ inner out
          let st2 : FTState :=
            { st1 with
              ctr := st1.ctr + 1
              muts := st1.muts ++ [.set out.rootId type_ inner] }
          processFeatures m type_ storage t_meta t_out.entries out1 st2
    | _ => .error "KeyError: meta"

/-- The type loop of `_fit_transform`, over `self._on`. -/
def processTypes (m : HistogramMarker) (env : Env PyVal) (storage : Bool)
    (input : PyVal) : List String → PyVal → FTState →
    Except String (PyVal × FTState)
  | [], out, st => .ok (out, st)
  | t :: rest, out, st =>
    (processType m env storage input t out st).bind
      (fun r => processTypes m env storage input rest r.1 r.2)

/-- `_fit_transform` (`histogram_marker.py:177`): start with the
fresh empty result dict `out = {}`, loop over `self._on`, and return
`out` (left empty whenever a storage collaborator was provided).
`storage` tells whether a storage collaborator was provided; `c0` is
the allocation counter for fresh object identities, to be chosen above
every identity of the input. -/
def HistogramMarker.fit_transform (m : HistogramMarker) (env : Env PyVal)
    (input : PyVal) (storage : Bool) (c0 : ℕ) :
    Except String (PyVal × FTState) :=
  processTypes m env storage input m.on (.dict c0 .nil)
    { ctr := c0 + 1, muts := [], stores := [], computeCalls := [] }

/-! ### Normalized form of the feature-loop body -/
/-- The counter after deep-copying the feature data (one fresh identity
for its dict, whose entries are atoms in `compute`'s output but are
kept general here). -/
def pfC1 (ffes : PyEntries) (c : ℕ) : ℕ := (deepcopyE ffes (c + 1)).2

/-- The counter after also deep-copying the per-type metadata. -/
def pfC2 (ffes tmes : PyEntries) (c : ℕ) : ℕ :=
  (deepcopyE tmes (pfC1 ffes c + 1)).2

/-- The marker metadata dict after the feature-name suffix was written
into its `name` entry. -/
def pfMarker2 (m : HistogramMarker) (k : String) (i : ℕ) : PyVal :=
  .dict i (.cons "name" (.atom (.aStr (m.name ++ "_" ++ k)))
    (.cons "class" (.atom (.aStr "HistogramMarker")) .nil))

/-- The finished per-feature value: the deep-copied feature data with
the deep-copied metadata attached under `meta`, the marker metadata
under `meta.marker`, and the suffixed name in `meta.marker.name`. -/
def pfFdc (m : HistogramMarker) (k : String) (ffes tmes : PyEntries)
    (c : ℕ) : PyVal :=
  .dict c (dictSet (deepcopyE ffes (c + 1)).1 "meta"
    (.dict (pfC1 ffes c)
      (dictSet (deepcopyE tmes (pfC1 ffes c + 1)).1 "marker"
        (pfMarker2 m k (pfC2 ffes tmes c)))))

/-- The three in-place mutations the feature-loop body performs, in
order: attach the meta copy, attach the marker dict, suffix the
name. -/
def pfMuts (m : HistogramMarker) (k : String) (ffes tmes : PyEntries)
    (c : ℕ) : List Mut :=
  [.set c "meta" (.dict (pfC1 ffes c) (deepcopyE tmes (pfC1 ffes c + 1)).1),
   .set (pfC1 ffes c) "marker" (updateMetaMarkerDict m (pfC2 ffes tmes c)),
   .set (pfC2 ffes tmes c) "name" (.atom (.aStr (m.name ++ "_" ++ k)))]

/-- The state after the copy-and-annotate part of the feature-loop
body. -/
def pfState (m : HistogramMarker) (k : String) (ffes tmes : PyEntries)
    (st : FTState) : FTState :=
  { ctr := pfC2 ffes tmes st.ctr + 1
    muts := st.muts ++ pfMuts m k ffes tmes st.ctr
    stores := st.stores
    computeCalls := st.computeCalls }

/-! ### Symbolic execution of `_fit_transform` -/
/-- The `hist` entry of `compute`'s output. -/
def histFeature (bins : ℕ) (d : List ℚ) : FeatureEntry :=
  { data := .counts (npHistogram d bins).1
    col_names := List.range (npHistogram d bins).1.length }

/-- The `bin_edges` entry of `compute`'s output. -/
def edgesFeature (bins : ℕ) (d : List ℚ) : FeatureEntry :=
  { data := .edges (npHistogram d bins).2
    col_names := List.range (npHistogram d bins).2.length }

/-- The per-type metadata after the shallow copy and the `type` tag. -/
def ftTmes (mes : PyEntries) : PyEntries :=
  dictSet mes "type" (.atom (.aStr "VBM_GM"))

/-- `extra_input`: the shallow copy of the input with `VBM_GM`
popped. -/
def ftExtra (res : PyEntries) (c0 : ℕ) : PyVal :=
  .dict (c0 + 1) (dictPop res "VBM_GM")

/-- The finished per-feature value built from `compute`'s entry `fe`. -/
def ftFdc (m : HistogramMarker) (k : String) (fe : FeatureEntry)
    (mes : PyEntries) (c : ℕ) : PyVal :=
  pfFdc m k (featureEntries fe) (ftTmes mes) c

/-- The counter after processing one feature starting at `c`. -/
def ftCtr (fe : FeatureEntry) (mes : PyEntries) (c : ℕ) : ℕ :=
  pfC2 (featureEntries fe) (ftTmes mes) c

/-- The result mapping of `_fit_transform` when no storage collaborator
is given: keyed by the data type, then by feature name. -/
def ftOutNoStorage (m : HistogramMarker) (d : List ℚ) (mes : PyEntries)
    (c0 : ℕ) : PyVal :=
  .dict c0 (.cons "VBM_GM"
    (.dict (c0 + 6)
      (.cons "hist" (ftFdc m "hist" (histFeature m.bins d) mes (c0 + 7))
        (.cons "bin_edges"
          (ftFdc m "bin_edges" (edgesFeature m.bins d) mes
            (ftCtr (histFeature m.bins d) mes (c0 + 7) + 1)) .nil)))
    .nil)

/-- The mutations recorded by `_fit_transform` when no storage
collaborator is given, in execution order. -/
def ftMutsNoStorage (m : HistogramMarker) (d : List ℚ) (mes : PyEntries)
    (c0 : ℕ) : List Mut :=
  [.pop (c0 + 1) "VBM_GM",
   .set (c0 + 2) "type" (.atom (.aStr "VBM_GM")),
   .set c0 "VBM_GM" (.dict (c0 + 6) .nil)] ++
  pfMuts m "hist" (featureEntries (histFeature m.bins d)) (ftTmes mes)
    (c0 + 7) ++
  [.set (c0 + 6) "hist" (ftFdc m "hist" (histFeature m.bins d) mes
    (c0 + 7))] ++
  pfMuts m "bin_edges" (featureEntries (edgesFeature m.bins d)) (ftTmes mes)
    (ftCtr (histFeature m.bins d) mes (c0 + 7) + 1) ++
  [.set (c0 + 6) "bin_edges" (ftFdc m "bin_edges" (edgesFeature m.bins d)
    mes (ftCtr (histFeature m.bins d) mes (c0 + 7) + 1))]

/-- The final side-channel state of `_fit_transform` when no storage
collaborator is given. -/
def ftStNoStorage (m : HistogramMarker) (t_input extra : PyVal)
    (d : List ℚ) (mes : PyEntries) (c0 : ℕ) : FTState :=
  { ctr := ftCtr (edgesFeature m.bins d) mes
      (ftCtr (histFeature m.bins d) mes (c0 + 7) + 1) + 1
    muts := ftMutsNoStorage m d mes c0
    stores := []
    computeCalls := [(t_input, extra)] }

/-- The two vector-kind calls `_fit_transform` makes to the storage
collaborator, in order. -/
def ftStoresStorage (m : HistogramMarker) (d : List ℚ) (mes : PyEntries)
    (c0 : ℕ) : List StoreCall :=
  [{ kind := "vector",
     payload := (ftFdc m "hist" (histFeature m.bins d) mes (c0 + 6)).entries },
   { kind := "vector",
     payload := (ftFdc m "bin_edges" (edgesFeature m.bins d) mes
       (ftCtr (histFeature m.bins d) mes (c0 + 6) + 1)).entries }]

/-- The mutations recorded by `_fit_transform` when a storage
collaborator is given. -/
def ftMutsStorage (m : HistogramMarker) (d : List ℚ) (mes : PyEntries)
    (c0 : ℕ) : List Mut :=
  [.pop (c0 + 1) "VBM_GM",
   .set (c0 + 2) "type" (.atom (.aStr "VBM_GM"))] ++
  pfMuts m "hist" (featureEntries (histFeature m.bins d)) (ftTmes mes)
    (c0 + 6) ++
  pfMuts m "bin_edges" (featureEntries (edgesFeature m.bins d)) (ftTmes mes)
    (ftCtr (histFeature m.bins d) mes (c0 + 6) + 1)

/-- The final side-channel state of `_fit_transform` when a storage
collaborator is given. -/
def ftStStorage (m : HistogramMarker) (t_input extra : PyVal)
    (d : List ℚ) (mes : PyEntries) (c0 : ℕ) : FTState :=
  { ctr := ftCtr (edgesFeature m.bins d) mes
      (ftCtr (histFeature m.bins d) mes (c0 + 6) + 1) + 1
    muts := ftMutsStorage m d mes c0
    stores := ftStoresStorage m d mes c0
    computeCalls := [(t_input, extra)] }

/-! ### Identity-free contents of the outputs -/
/-- The identity-free metadata attached to each output feature: the
input's metadata with the `type` tag and the marker metadata (name
suffixed with the feature name) added. -/
def expectedMetaPure (m : HistogramMarker) (k : String) (mes : PyEntries) :
    PureVal :=
  .dict (dictSetP (dictSetP mes.toPure "type" (.atom (.aStr "VBM_GM")))
    "marker"
    (.dict (.cons "name" (.atom (.aStr (m.name ++ "_" ++ k)))
      (.cons "class" (.atom (.aStr "HistogramMarker")) .nil))))

/-- The identity-free value of one finished output feature: the
feature's data and col_names plus the attached metadata. -/
def expectedFeaturePure (m : HistogramMarker) (k : String)
    (fe : FeatureEntry) (mes : PyEntries) : PureVal :=
  .dict (dictSetP (featureEntries fe).toPure "meta" (expectedMetaPure m k mes))

/-- The meta dict inside a finished per-feature value. -/
def pfMeta (m : HistogramMarker) (k : String) (ffes tmes : PyEntries)
    (c : ℕ) : PyVal :=
  .dict (pfC1 ffes c)
    (dictSet (deepcopyE tmes (pfC1 ffes c + 1)).1 "marker"
      (pfMarker2 m k (pfC2 ffes tmes c)))

/-! ## Concrete Python-level example input -/
/-- The `meta` entries of the example per-type record. -/
def exampleMetaEntries : PyEntries :=
  .cons "element" (.atom (.aStr "sub-01")) .nil

/-- The `VBM_GM` record of the example input: the example image plus a
metadata dict. -/
def exampleTInput : PyVal :=
  .dict 1 (.cons "data" (.atom (.aImg exampleImage))
    (.cons "meta" (.dict 2 exampleMetaEntries) .nil))

/-- The entries of the example Junifer data object. -/
def examplePyEntries : PyEntries := .cons "VBM_GM" exampleTInput .nil

/-- The example Junifer data object (object identities 0, 1, 2). -/
def examplePyInput : PyVal := .dict 0 examplePyEntries

/-- A Python-level environment with a fixed mask-resolution result. -/
def examplePyEnv : Env PyVal :=
  { get_mask := fun _ _ _ =>
      { inMask := [true, false, true, true, false, false, false, false] } }

/-! ### Basic length facts -/
theorem histCounts_length (data : List ℚ) (bins : ℕ) :
    (histCounts data bins).length = bins := by
  simp [histCounts]

theorem binEdges_length (data : List ℚ) (bins : ℕ) :
    (binEdges data bins).length = bins + 1 := by
  rw [binEdges, List.length_map, List.length_range]

/-- Flattening the 3-D voxel array yields one scalar per voxel. -/
theorem NiftiImage.getFdataRavel_length (img : NiftiImage) :
    img.getFdataRavel.length = img.voxelCount := by
  rw [NiftiImage.getFdataRavel, NiftiImage.voxelCount,
    List.length_flatten, List.map_map]
  refine congrArg List.sum (List.map_congr_left ?_)
  intro p _
  simp [Function.comp]

theorem zip_countP_snd (vox : List ℚ) (mask : List Bool)
    (h : mask.length = vox.length) :
    ((vox.zip mask).countP (fun p => p.2)) = mask.countP (fun b => b) := by
  induction vox generalizing mask with
  | nil =>
    rw [List.length_nil] at h
    rw [List.eq_nil_of_length_eq_zero h]
    rfl
  | cons x xs ih =>
    match mask with
    | [] => simp at h
    | b :: bs =>
      rw [List.zip_cons_cons, List.countP_cons, List.countP_cons,
        ih bs (by simpa using h)]

/-- Applying a mask with one indicator per voxel keeps exactly the
in-mask voxels. -/
theorem applyMask_length (mask : List Bool) (vox : List ℚ)
    (h : mask.length = vox.length) :
    (applyMask mask vox).length = mask.countP (fun b => b) := by
  rw [applyMask, List.length_map, ← List.countP_eq_length_filter,
    zip_countP_snd vox mask h]

/-! ### Every data value falls in some bin -/
theorem foldl_min_bounds (xs : List ℚ) (a : ℚ) :
    xs.foldl min a ≤ a ∧ ∀ x ∈ xs, xs.foldl min a ≤ x := by
  induction xs generalizing a with
  | nil => simp
  | cons y ys ih =>
    refine ⟨le_trans (ih (min a y)).1 (min_le_left a y), ?_⟩
    intro x hx
    rcases List.mem_cons.mp hx with rfl | hx
    · exact le_trans (ih (min a x)).1 (min_le_right a x)
    · exact (ih (min a y)).2 x hx

theorem foldl_max_bounds (xs : List ℚ) (a : ℚ) :
    a ≤ xs.foldl max a ∧ ∀ x ∈ xs, x ≤ xs.foldl max a := by
  induction xs generalizing a with
  | nil => simp
  | cons y ys ih =>
    refine ⟨le_trans (le_max_left a y) (ih (max a y)).1, ?_⟩
    intro x hx
    rcases List.mem_cons.mp hx with rfl | hx
    · exact le_trans (le_max_right a x) (ih (max a x)).1
    · exact (ih (max a y)).2 x hx

theorem dataMin_le (data : List ℚ) (x : ℚ) (hx : x ∈ data) :
    dataMin data ≤ x := by
  match data with
  | [] => simp at hx
  | y :: ys =>
    rw [dataMin]
    rcases List.mem_cons.mp hx with rfl | hx
    · exact (foldl_min_bounds ys x).1
    · exact (foldl_min_bounds ys y).2 x hx

theorem le_dataMax (data : List ℚ) (x : ℚ) (hx : x ∈ data) :
    x ≤ dataMax data := by
  match data with
  | [] => simp at hx
  | y :: ys =>
    rw [dataMax]
    rcases List.mem_cons.mp hx with rfl | hx
    · exact (foldl_max_bounds ys x).1
    · exact (foldl_max_bounds ys y).2 x hx

theorem histRange_cons (y : ℚ) (ys : List ℚ) :
    histRange (y :: ys) =
      if dataMin (y :: ys) = dataMax (y :: ys) then
        (dataMin (y :: ys) - 1/2, dataMax (y :: ys) + 1/2)
      else (dataMin (y :: ys), dataMax (y :: ys)) := rfl

/-- Every value of the data falls in one of the `bins` bins: the range
is derived from the data's own min and max, so no value is out of
range. -/
theorem binIndex_lt (data : List ℚ) (bins : ℕ) (hb : 0 < bins)
    (x : ℚ) (hx : x ∈ data) :
    binIndex (histRange data).1 (histRange data).2 bins x < bins := by
  have hmn : dataMin data ≤ x := dataMin_le data x hx
  have hmx : x ≤ dataMax data := le_dataMax data x hx
  have hbq : (0 : ℚ) < (bins : ℚ) := by exact_mod_cast hb
  match data with
  | [] => simp at hx
  | y :: ys =>
    rw [histRange_cons]
    by_cases heq : dataMin (y :: ys) = dataMax (y :: ys)
    · rw [if_pos heq]
      dsimp only
      rw [binIndex]
      have hxeq : x = dataMax (y :: ys) := le_antisymm hmx (heq ▸ hmn)
      have hnotle : ¬ (dataMax (y :: ys) + 1/2 ≤ x) := by
        rw [hxeq] at *; linarith
      rw [if_neg hnotle]
      have harg : (x - (dataMin (y :: ys) - 1/2)) * bins /
          ((dataMax (y :: ys) + 1/2) - (dataMin (y :: ys) - 1/2)) =
            bins / 2 := by
        rw [hxeq, ← heq]
        ring_nf
      rw [harg]
      have hfl : Int.floor ((bins : ℚ) / 2) < (bins : ℤ) := by
        rw [Int.floor_lt]
        push_cast
        linarith
      omega
    · rw [if_neg heq]
      dsimp only
      rw [binIndex]
      by_cases hge : dataMax (y :: ys) ≤ x
      · rw [if_pos hge]; omega
      · rw [if_neg hge]
        push_neg at hge
        have hlt : dataMin (y :: ys) < dataMax (y :: ys) :=
          lt_of_le_of_ne (le_trans hmn hmx) heq
        have harg : (x - dataMin (y :: ys)) * bins /
            (dataMax (y :: ys) - dataMin (y :: ys)) < bins := by
          rw [div_lt_iff₀ (by linarith)]
          have h1 : x - dataMin (y :: ys) <
              dataMax (y :: ys) - dataMin (y :: ys) := by linarith
          calc (x - dataMin (y :: ys)) * bins
              < (dataMax (y :: ys) - dataMin (y :: ys)) * bins :=
                mul_lt_mul_of_pos_right h1 hbq
            _ = bins * (dataMax (y :: ys) - dataMin (y :: ys)) := by ring
        have hfl : Int.floor ((x - dataMin (y :: ys)) * bins /
            (dataMax (y :: ys) - dataMin (y :: ys))) < (bins : ℤ) := by
          rw [Int.floor_lt]
          exact_mod_cast harg
        omega

/-- Binning a list by a function with range `[0, b)` partitions it:
the bin sizes sum to the list's length. -/
theorem sum_bincount {α : Type} (f : α → ℕ) (b : ℕ) (l : List α)
    (h : ∀ x ∈ l, f x < b) :
    (∑ i ∈ Finset.range b, (l.filter (fun x => f x = i)).length) =
      l.length := by
  induction l with
  | nil => simp
  | cons a t ih =>
    have ha : f a < b := h a (by simp)
    have ht : ∀ x ∈ t, f x < b := fun x hx => h x (by simp [hx])
    have step : ∀ i : ℕ, ((a :: t).filter (fun x => f x = i)).length
        = (t.filter (fun x => f x = i)).length +
          (if f a = i then 1 else 0) := by
      intro i
      by_cases hfa : f a = i <;> simp [List.filter_cons, hfa]
    simp only [step]
    rw [Finset.sum_add_distrib, ih ht]
    have hone : (∑ i ∈ Finset.range b, if f a = i then 1 else 0) = 1 := by
      rw [Finset.sum_ite_eq (Finset.range b) (f a) (fun _ => 1)]
      simp [Finset.mem_range.mpr ha]
    rw [hone, List.length_cons]

/-- The histogram counts sum to the number of data values whenever the
bin count is positive. -/
theorem histCounts_sum (data : List ℚ) (bins : ℕ) (hb : 0 < bins) :
    (histCounts data bins).sum = data.length := by
  rw [histCounts]
  exact sum_bincount _ bins data (fun x hx => binIndex_lt data bins hb x hx)

/-- The shape of `compute`'s output dictionary literal
(`histogram_marker.py:132`). -/
theorem computeOutputDict_shape (bins : ℕ) (data : List ℚ) :
    (computeOutputDict bins data).map Prod.fst = ["hist", "bin_edges"] ∧
    ∃ fh fe,
      (computeOutputDict bins data).lookup "hist" = some fh ∧
      (computeOutputDict bins data).lookup "bin_edges" = some fe ∧
      fh.data.size = bins ∧
      fe.data.size = bins + 1 ∧
      fh.col_names = List.range fh.data.size ∧
      fe.col_names = List.range fe.data.size := by
  refine ⟨by simp [computeOutputDict], ?_⟩
  refine
    ⟨{ data := .counts (npHistogram data bins).1,
       col_names := List.range (npHistogram data bins).1.length },
     { data := .edges (npHistogram data bins).2,
       col_names := List.range (npHistogram data bins).2.length },
     ?_, ?_, ?_, ?_, ?_, ?_⟩ <;>
    simp [computeOutputDict, List.lookup, FeatureData.size, npHistogram,
      histCounts_length, binEdges_length]

/-! ## Claim theorems -/
/-- C1: for every positive integer bin count `b`, `compute` returns a
mapping with exactly the two entries `hist` and `bin_edges`; the `hist`
data array has length `b`, the `bin_edges` data array has length `b + 1`
(always exactly one more element than `hist`), and each entry's
`col_names` list is its own index range `[0, size)` of matching
length. -/
theorem compute_output_hist_and_edges {ε : Type} (m : HistogramMarker)
    (env : Env ε) (input : MarkerInput) (extra_input : Option ε)
    (hb : 0 < m.bins) :
    ((m.compute env input extra_input).1.map Prod.fst =
      ["hist", "bin_edges"]) ∧
    ∃ fh fe,
      (m.compute env input extra_input).1.lookup "hist" = some fh ∧
      (m.compute env input extra_input).1.lookup "bin_edges" = some fe ∧
      fh.data.size = m.bins ∧
      fe.data.size = m.bins + 1 ∧
      fe.data.size = fh.data.size + 1 ∧
      fh.col_names = List.range fh.data.size ∧
      fh.col_names.length = fh.data.size ∧
      fe.col_names = List.range fe.data.size ∧
      fe.col_names.length = fe.data.size := by
  have key :
      ∀ data : List ℚ,
        ((computeOutputDict m.bins data).map Prod.fst =
          ["hist", "bin_edges"]) ∧
        ∃ fh fe,
          (computeOutputDict m.bins data).lookup "hist" = some fh ∧
          (computeOutputDict m.bins data).lookup "bin_edges" = some fe ∧
          fh.data.size = m.bins ∧
          fe.data.size = m.bins + 1 ∧
          fe.data.size = fh.data.size + 1 ∧
          fh.col_names = List.range fh.data.size ∧
          fh.col_names.length = fh.data.size ∧
          fe.col_names = List.range fe.data.size ∧
          fe.col_names.length = fe.data.size := by
    intro data
    obtain ⟨hkeys, fh, fe, h1, h2, h3, h4, h5, h6⟩ :=
      computeOutputDict_shape m.bins data
    exact ⟨hkeys, fh, fe, h1, h2, h3, h4, by rw [h3, h4], h5,
      by rw [h5, List.length_range], h6, by rw [h6, List.length_range]⟩
  cases hm : m.masks with
  | none => simpa [HistogramMarker.compute, hm] using key _
  | some s => simpa [HistogramMarker.compute, hm] using key _

/-- C1 witness: the shape property instantiated on the example marker
(4 bins) and the example 2×2×2 input. -/
theorem compute_output_hist_and_edges_witness :
    (0 < exampleMarker.bins) ∧
    (((exampleMarker.compute exampleEnv exampleInput none).1.map Prod.fst =
      ["hist", "bin_edges"]) ∧
    ∃ fh fe,
      (exampleMarker.compute exampleEnv exampleInput none).1.lookup "hist" =
        some fh ∧
      (exampleMarker.compute exampleEnv exampleInput none).1.lookup
        "bin_edges" = some fe ∧
      fh.data.size = exampleMarker.bins ∧
      fe.data.size = exampleMarker.bins + 1 ∧
      fe.data.size = fh.data.size + 1 ∧
      fh.col_names = List.range fh.data.size ∧
      fh.col_names.length = fh.data.size ∧
      fe.col_names = List.range fe.data.size ∧
      fe.col_names.length = fe.data.size) :=
  ⟨by decide,
   compute_output_hist_and_edges exampleMarker exampleEnv exampleInput none
     (by decide)⟩

/-- C7: with no mask specification configured, the flattened 1-D array
the histogram is computed over is the raveled voxel array of the source
image, and its length is the total voxel count of the input image. -/
theorem compute_unmasked_data_length {ε : Type} (m : HistogramMarker)
    (env : Env ε) (input : MarkerInput) (extra_input : Option ε)
    (hm : m.masks = none) :
    (m.compute env input extra_input).2.dataUsed =
      input.data.getFdataRavel ∧
    (m.compute env input extra_input).2.dataUsed.length =
      input.data.voxelCount ∧
    (m.compute env input extra_input).1 =
      computeOutputDict m.bins
        (m.compute env input extra_input).2.dataUsed := by
  simp [HistogramMarker.compute, hm, NiftiImage.getFdataRavel_length]

/-- C7 witness: the unmasked data length equals the 8 voxels of the
example 2×2×2 image. -/
theorem compute_unmasked_data_length_witness :
    (exampleMarker.compute exampleEnv exampleInput none).2.dataUsed =
      exampleInput.data.getFdataRavel ∧
    (exampleMarker.compute exampleEnv exampleInput none).2.dataUsed.length =
      exampleInput.data.voxelCount ∧
    (exampleMarker.compute exampleEnv exampleInput none).1 =
      computeOutputDict exampleMarker.bins
        (exampleMarker.compute exampleEnv exampleInput none).2.dataUsed :=
  compute_unmasked_data_length exampleMarker exampleEnv exampleInput none rfl

/-- C8: with a mask specification configured, `compute` resolves it via
the external mask-resolution utility (passing the input record and the
extra records), applies it with a masking utility configured with the
resolved mask image and the source image's affine, and the flattened
1-D array used to build the histogram has one entry per in-mask
voxel. -/
theorem compute_masked_data_length {ε : Type} (m : HistogramMarker)
    (env : Env ε) (input : MarkerInput) (extra_input : Option ε)
    (s : MaskSpec) (hm : m.masks = some s)
    (hlen : (env.get_mask s input extra_input).inMask.length =
      input.data.getFdataRavel.length) :
    (m.compute env input extra_input).2.getMaskCall =
      some (s, input, extra_input) ∧
    (m.compute env input extra_input).2.maskerUsed =
      some ⟨env.get_mask s input extra_input, input.data.affine⟩ ∧
    (m.compute env input extra_input).2.dataUsed.length =
      (env.get_mask s input extra_input).inMaskCount ∧
    (m.compute env input extra_input).1 =
      computeOutputDict m.bins
        (m.compute env input extra_input).2.dataUsed := by
  refine ⟨by simp [HistogramMarker.compute, hm],
    by simp [HistogramMarker.compute, hm], ?_,
    by simp [HistogramMarker.compute, hm]⟩
  simp only [HistogramMarker.compute, hm, niftiMaskerFitTransform,
    MaskImage.inMaskCount]
  exact applyMask_length _ _ hlen

/-- C8 witness: with the example mask (3 of 8 voxels in-mask), the
masked data length is 3. -/
theorem compute_masked_data_length_witness :
    (exampleMaskedMarker.compute exampleEnv exampleInput none).2.getMaskCall =
      some ({ spec := "GM_prob0.2" }, exampleInput, none) ∧
    (exampleMaskedMarker.compute exampleEnv exampleInput none).2.maskerUsed =
      some ⟨exampleEnv.get_mask { spec := "GM_prob0.2" } exampleInput none,
        exampleInput.data.affine⟩ ∧
    (exampleMaskedMarker.compute exampleEnv exampleInput none).2.dataUsed.length =
      (exampleEnv.get_mask { spec := "GM_prob0.2" } exampleInput
        none).inMaskCount ∧
    (exampleMaskedMarker.compute exampleEnv exampleInput none).1 =
      computeOutputDict exampleMaskedMarker.bins
        (exampleMaskedMarker.compute exampleEnv exampleInput none).2.dataUsed :=
  compute_masked_data_length exampleMaskedMarker exampleEnv exampleInput none
    { spec := "GM_prob0.2" } rfl rfl

/-! ## Further helper lemmas and concrete evaluations -/
/-- Whatever the mask configuration, `compute` returns the output
dictionary built over the flattened data it selected. -/
theorem compute_fst_eq {ε : Type} (m : HistogramMarker) (env : Env ε)
    (input : MarkerInput) (extra_input : Option ε) :
    (m.compute env input extra_input).1 =
      computeOutputDict m.bins
        (m.compute env input extra_input).2.dataUsed := by
  cases hm : m.masks <;> simp [HistogramMarker.compute, hm]

theorem computeOutputDict_lookup_hist (bins : ℕ) (data : List ℚ) :
    (computeOutputDict bins data).lookup "hist" =
      some { data := .counts (histCounts data bins),
             col_names := List.range (histCounts data bins).length } := by
  simp [computeOutputDict, List.lookup, npHistogram]

theorem computeOutputDict_lookup_edges (bins : ℕ) (data : List ℚ) :
    (computeOutputDict bins data).lookup "bin_edges" =
      some { data := .edges (binEdges data bins),
             col_names := List.range (binEdges data bins).length } := by
  simp [computeOutputDict, List.lookup, npHistogram]

/-- The flattened data of the example input is the eight values. -/
theorem exampleInput_ravel :
    exampleInput.data.getFdataRavel = [1, 2, 3, 4, 5, 6, 7, 8] := rfl

theorem example_histRange : histRange [1, 2, 3, 4, 5, 6, 7, 8] = (1, 8) := by
  have h1 : dataMin [1, 2, 3, 4, 5, 6, 7, 8] = 1 := by
    norm_num [dataMin, min_def]
  have h2 : dataMax [1, 2, 3, 4, 5, 6, 7, 8] = 8 := by
    norm_num [dataMax, max_def]
  rw [histRange_cons, h1, h2]
  norm_num

theorem example_binEdges :
    binEdges [1, 2, 3, 4, 5, 6, 7, 8] 4 = [1, 11/4, 9/2, 25/4, 8] := by
  simp only [binEdges, example_histRange, List.range_succ, List.range_zero,
    List.map_append, List.map_cons, List.map_nil, List.nil_append,
    List.cons_append]
  norm_num

theorem example_histCounts :
    histCounts [1, 2, 3, 4, 5, 6, 7, 8] 4 = [2, 2, 2, 2] := by
  have b1 : binIndex 1 8 4 1 = 0 := by norm_num [binIndex]
  have b2 : binIndex 1 8 4 2 = 0 := by norm_num [binIndex]
  have b3 : binIndex 1 8 4 3 = 1 := by norm_num [binIndex]
  have b4 : binIndex 1 8 4 4 = 1 := by norm_num [binIndex]
  have b5 : binIndex 1 8 4 5 = 2 := by
    norm_num [binIndex]
    decide
  have b6 : binIndex 1 8 4 6 = 2 := by
    norm_num [binIndex]
    decide
  have b7 : binIndex 1 8 4 7 = 3 := by
    norm_num [binIndex]
    decide
  have b8 : binIndex 1 8 4 8 = 3 := by norm_num [binIndex]
  simp only [histCounts, example_histRange, List.range_succ, List.range_zero,
    List.map_append, List.map_cons, List.map_nil, List.nil_append,
    List.cons_append, List.filter_cons, List.filter_nil,
    b1, b2, b3, b4, b5, b6, b7, b8]
  norm_num

/-- The five equally spaced edge points from 1.0 to 8.0 (step 7/4). -/
theorem example_arithProgression :
    arithProgression 1 (7/4) 5 = [1, 11/4, 9/2, 25/4, 8] := by
  simp only [arithProgression, List.range_succ, List.range_zero,
    List.map_append, List.map_cons, List.map_nil, List.nil_append,
    List.cons_append]
  norm_num

/-! ## Claim theorems (continued) -/
/-- C9: whenever the flattened data array is non-empty (all modelled
values are exact rationals, hence finite) and the configured bin count
is positive, the counts in the `hist` output of `compute` sum to the
number of elements of the flattened data array: no value falls outside
the computed bin range. -/
theorem compute_hist_counts_sum_length {ε : Type} (m : HistogramMarker)
    (env : Env ε) (input : MarkerInput) (extra_input : Option ε)
    (hne : (m.compute env input extra_input).2.dataUsed ≠ [])
    (hb : 0 < m.bins) :
    ∃ fh l,
      (m.compute env input extra_input).1.lookup "hist" = some fh ∧
      fh.data = .counts l ∧
      l.sum = (m.compute env input extra_input).2.dataUsed.length := by
  refine
    ⟨{ data :=
         .counts (histCounts (m.compute env input extra_input).2.dataUsed
           m.bins),
       col_names :=
         List.range (histCounts (m.compute env input extra_input).2.dataUsed
           m.bins).length },
     histCounts (m.compute env input extra_input).2.dataUsed m.bins,
     ?_, rfl, ?_⟩
  · rw [compute_fst_eq, computeOutputDict_lookup_hist]
  · exact histCounts_sum _ m.bins hb

/-- C9 witness: on the example 2×2×2 input (8 voxels, 4 bins) the
counts sum to 8, the length of the flattened data. -/
theorem compute_hist_counts_sum_length_witness :
    ∃ fh l,
      (exampleMarker.compute exampleEnv exampleInput none).1.lookup "hist" =
        some fh ∧
      fh.data = .counts l ∧
      l.sum =
        (exampleMarker.compute exampleEnv exampleInput none).2.dataUsed.length :=
  compute_hist_counts_sum_length exampleMarker exampleEnv exampleInput none
    (by simp [HistogramMarker.compute, exampleMarker, exampleInput_ravel])
    (by decide)

/-- C4 counterexample: on the 2×2×2 volume with values `[1..8]` and 4
bins, the `bin_edges` array the code produces has 5 points, so it is
not "8 equally spaced points" as the claim states. -/
theorem compute_example_edges_are_five_points_not_eight :
    ∃ fe,
      (exampleMarker.compute exampleEnv exampleInput none).1.lookup
        "bin_edges" = some fe ∧
      fe.data.size = 5 ∧ ¬ fe.data.size = 8 := by
  have hdata :
      (exampleMarker.compute exampleEnv exampleInput none).2.dataUsed =
        [1, 2, 3, 4, 5, 6, 7, 8] := rfl
  refine
    ⟨{ data :=
         .edges (binEdges
           (exampleMarker.compute exampleEnv exampleInput none).2.dataUsed
           exampleMarker.bins),
       col_names :=
         List.range (binEdges
           (exampleMarker.compute exampleEnv exampleInput none).2.dataUsed
           exampleMarker.bins).length },
     ?_, ?_, ?_⟩
  · rw [compute_fst_eq, computeOutputDict_lookup_edges]
  · dsimp only [FeatureData.size]
    rw [hdata, binEdges_length, show exampleMarker.bins = 4 from rfl]
  · dsimp only [FeatureData.size]
    rw [hdata, binEdges_length, show exampleMarker.bins = 4 from rfl]
    decide

/-- C4 amended: on the 2×2×2 volume with values `[1..8]` and 4 bins,
the bin edges are the 5 equally spaced points from 1.0 to 8.0 (step
7/4, length 5), and the histogram counts sum to 8. -/
theorem compute_example_edges_and_counts :
    ∃ fh fe,
      (exampleMarker.compute exampleEnv exampleInput none).1.lookup "hist" =
        some fh ∧
      (exampleMarker.compute exampleEnv exampleInput none).1.lookup
        "bin_edges" = some fe ∧
      fe.data = .edges (arithProgression 1 (7/4) 5) ∧
      fe.data = .edges [1, 11/4, 9/2, 25/4, 8] ∧
      (arithProgression 1 (7/4) 5).length = 5 ∧
      (arithProgression 1 (7/4) 5).head? = some 1 ∧
      (arithProgression 1 (7/4) 5).getLast? = some 8 ∧
      fh.data = .counts [2, 2, 2, 2] ∧
      ([2, 2, 2, 2] : List ℕ).sum = 8 := by
  have hdata :
      (exampleMarker.compute exampleEnv exampleInput none).2.dataUsed =
        [1, 2, 3, 4, 5, 6, 7, 8] := rfl
  refine
    ⟨{ data :=
         .counts (histCounts
           (exampleMarker.compute exampleEnv exampleInput none).2.dataUsed
           exampleMarker.bins),
       col_names :=
         List.range (histCounts
           (exampleMarker.compute exampleEnv exampleInput none).2.dataUsed
           exampleMarker.bins).length },
     { data :=
         .edges (binEdges
           (exampleMarker.compute exampleEnv exampleInput none).2.dataUsed
           exampleMarker.bins),
       col_names :=
         List.range (binEdges
           (exampleMarker.compute exampleEnv exampleInput none).2.dataUsed
           exampleMarker.bins).length },
     ?_, ?_, ?_, ?_, ?_, ?_, ?_, ?_, ?_⟩
  · rw [compute_fst_eq, computeOutputDict_lookup_hist]
  · rw [compute_fst_eq, computeOutputDict_lookup_edges]
  · dsimp only
    rw [hdata, show exampleMarker.bins = 4 from rfl, example_binEdges,
      example_arithProgression]
  · dsimp only
    rw [hdata, show exampleMarker.bins = 4 from rfl, example_binEdges]
  · rw [example_arithProgression]
    simp
  · rw [example_arithProgression]
    rfl
  · rw [example_arithProgression]
    rfl
  · dsimp only
    rw [hdata, show exampleMarker.bins = 4 from rfl, example_histCounts]
  · rfl

/-- C3: the masked code path of `compute` executes the unconditional
`breakpoint()` at `histogram_marker.py:110` — a side effect beyond
diagnostic logging (it suspends execution in the debugger) — while the
unmasked path has no effect beyond logging.  This refutes the claim
that `compute` has no side effect beyond logging for every input both
with and without a configured mask. -/
theorem compute_masked_hits_breakpoint :
    (exampleMaskedMarker.compute exampleEnv exampleInput none).2.breakpointHit
      = true ∧
    (exampleMarker.compute exampleEnv exampleInput none).2.breakpointHit
      = false :=
  ⟨rfl, rfl⟩

/-! ### Frame lemmas for the object-graph model -/
mutual
/-- Mutating an object whose identity does not occur in a value leaves
the value unchanged. -/
theorem setAt_not_mem (t : ℕ) (k : String) (w : PyVal) :
    ∀ v : PyVal, t ∉ v.ids → setAt t k w v = v
  | .atom _, _ => rfl
  | .dict i es, h => by
    rw [PyVal.ids] at h
    have hne : i ≠ t := fun he => h (he ▸ List.mem_cons_self i es.ids)
    have hes : t ∉ es.ids := fun hm => h (List.mem_cons_of_mem i hm)
    rw [setAt, if_neg hne, setAtE_not_mem t k w es hes]

theorem setAtE_not_mem (t : ℕ) (k : String) (w : PyVal) :
    ∀ es : PyEntries, t ∉ es.ids → setAtE t k w es = es
  | .nil, _ => rfl
  | .cons k0 v0 es, h => by
    rw [PyEntries.ids] at h
    have hv : t ∉ v0.ids := fun hm => h (List.mem_append_left _ hm)
    have hes : t ∉ es.ids := fun hm => h (List.mem_append_right _ hm)
    rw [setAtE, setAt_not_mem t k w v0 hv, setAtE_not_mem t k w es hes]
end

mutual
/-- Popping on an object whose identity does not occur in a value
leaves the value unchanged. -/
theorem popAt_not_mem (t : ℕ) (k : String) :
    ∀ v : PyVal, t ∉ v.ids → popAt t k v = v
  | .atom _, _ => rfl
  | .dict i es, h => by
    rw [PyVal.ids] at h
    have hne : i ≠ t := fun he => h (he ▸ List.mem_cons_self i es.ids)
    have hes : t ∉ es.ids := fun hm => h (List.mem_cons_of_mem i hm)
    rw [popAt, if_neg hne, popAtE_not_mem t k es hes]

theorem popAtE_not_mem (t : ℕ) (k : String) :
    ∀ es : PyEntries, t ∉ es.ids → popAtE t k es = es
  | .nil, _ => rfl
  | .cons k0 v0 es, h => by
    rw [PyEntries.ids] at h
    have hv : t ∉ v0.ids := fun hm => h (List.mem_append_left _ hm)
    have hes : t ∉ es.ids := fun hm => h (List.mem_append_right _ hm)
    rw [popAtE, popAt_not_mem t k v0 hv, popAtE_not_mem t k es hes]
end

/-- Replaying mutations none of whose targets occur in a value leaves
the value unchanged. -/
theorem applyMuts_not_mem (ms : List Mut) (v : PyVal)
    (h : ∀ mu ∈ ms, mu.target ∉ v.ids) : applyMuts v ms = v := by
  induction ms with
  | nil => rfl
  | cons mu ms ih =>
    have h1 : applyMut v mu = v := by
      match mu with
      | .set t k w =>
        exact setAt_not_mem t k w v (h (Mut.set t k w) (by simp) )
      | .pop t k =>
        exact popAt_not_mem t k v (h (Mut.pop t k) (by simp) )
    rw [applyMuts, List.foldl_cons, h1]
    exact ih (fun mu hm => h mu (List.mem_cons_of_mem _ hm))

mutual
/-- The allocation counter never decreases along a deep copy. -/
theorem deepcopy_ctr_le : ∀ (v : PyVal) (c : ℕ), c ≤ (deepcopy v c).2
  | .atom _, _ => le_refl _
  | .dict _ es, c => by
    rw [deepcopy]
    exact le_trans (Nat.le_succ c) (deepcopyE_ctr_le es (c + 1))

theorem deepcopyE_ctr_le : ∀ (es : PyEntries) (c : ℕ), c ≤ (deepcopyE es c).2
  | .nil, _ => le_refl _
  | .cons _ v es, c => by
    rw [deepcopyE]
    exact le_trans (deepcopy_ctr_le v c) (deepcopyE_ctr_le es (deepcopy v c).2)
end

mutual
/-- Every identity of a deep copy is fresh: at or above the counter the
copy started from, and below the counter it returned. -/
theorem deepcopy_ids : ∀ (v : PyVal) (c : ℕ),
    ∀ i ∈ (deepcopy v c).1.ids, c ≤ i ∧ i < (deepcopy v c).2
  | .atom _, _ => by intro i hi; rw [deepcopy, PyVal.ids] at hi; simp at hi
  | .dict _ es, c => by
    intro i hi
    rw [deepcopy] at hi ⊢
    rw [PyVal.ids] at hi
    rcases List.mem_cons.mp hi with rfl | hi
    · exact ⟨le_refl _,
        lt_of_lt_of_le (Nat.lt_succ_self i) (deepcopyE_ctr_le es (i + 1))⟩
    · have := deepcopyE_ids es (c + 1) i hi
      exact ⟨le_trans (Nat.le_succ c) this.1, this.2⟩

theorem deepcopyE_ids : ∀ (es : PyEntries) (c : ℕ),
    ∀ i ∈ (deepcopyE es c).1.ids, c ≤ i ∧ i < (deepcopyE es c).2
  | .nil, _ => by intro i hi; rw [deepcopyE, PyEntries.ids] at hi; simp at hi
  | .cons k v es, c => by
    intro i hi
    rw [deepcopyE] at hi ⊢
    rw [PyEntries.ids] at hi
    rcases List.mem_append.mp hi with hi | hi
    · have := deepcopy_ids v c i hi
      exact ⟨this.1, lt_of_lt_of_le this.2 (deepcopyE_ctr_le es (deepcopy v c).2)⟩
    · have := deepcopyE_ids es (deepcopy v c).2 i hi
      exact ⟨le_trans (deepcopy_ctr_le v c) this.1, this.2⟩
end

mutual
/-- A deep copy has the same identity-free value as the original. -/
theorem deepcopy_toPure : ∀ (v : PyVal) (c : ℕ),
    (deepcopy v c).1.toPure = v.toPure
  | .atom _, _ => rfl
  | .dict _ es, c => by
    rw [deepcopy, PyVal.toPure, PyVal.toPure, deepcopyE_toPure es (c + 1)]

theorem deepcopyE_toPure : ∀ (es : PyEntries) (c : ℕ),
    (deepcopyE es c).1.toPure = es.toPure
  | .nil, _ => rfl
  | .cons k v es, c => by
    rw [deepcopyE, PyEntries.toPure, PyEntries.toPure, deepcopy_toPure v c,
      deepcopyE_toPure es (deepcopy v c).2]
end

/-- The identities of a looked-up entry occur among the entries'
identities. -/
theorem get_ids_subset : ∀ (es : PyEntries) (k : String) (w : PyVal),
    es.get k = some w → ∀ i ∈ w.ids, i ∈ es.ids
  | .nil, _, _, h => by rw [PyEntries.get] at h; cases h
  | .cons k0 v0 es, k, w, h => by
    rw [PyEntries.get] at h
    intro i hi
    rw [PyEntries.ids]
    by_cases hk : k0 = k
    · rw [if_pos hk] at h
      cases h
      exact List.mem_append_left _ hi
    · rw [if_neg hk] at h
      exact List.mem_append_right _ (get_ids_subset es k w h i hi)

/-- After `dictSet`, every identity comes from the old entries or the
inserted value. -/
theorem dictSet_ids_subset : ∀ (es : PyEntries) (k : String) (w : PyVal),
    ∀ i ∈ (dictSet es k w).ids, i ∈ es.ids ∨ i ∈ w.ids
  | .nil, k, w => by
    intro i hi
    rw [dictSet, PyEntries.ids, PyEntries.ids] at hi
    exact Or.inr (by simpa using hi)
  | .cons k0 v0 es, k, w => by
    intro i hi
    rw [dictSet] at hi
    by_cases hk : k0 = k
    · rw [if_pos hk, PyEntries.ids] at hi
      rcases List.mem_append.mp hi with hi | hi
      · exact Or.inr hi
      · exact Or.inl (by rw [PyEntries.ids]; exact List.mem_append_right _ hi)
    · rw [if_neg hk, PyEntries.ids] at hi
      rcases List.mem_append.mp hi with hi | hi
      · exact Or.inl (by rw [PyEntries.ids]; exact List.mem_append_left _ hi)
      · rcases dictSet_ids_subset es k w i hi with h | h
        · exact Or.inl (by rw [PyEntries.ids]; exact List.mem_append_right _ h)
        · exact Or.inr h

/-- `dictSet` then lookup of the same key. -/
theorem get_dictSet_self : ∀ (es : PyEntries) (k : String) (w : PyVal),
    (dictSet es k w).get k = some w
  | .nil, k, w => by rw [dictSet, PyEntries.get, if_pos rfl]
  | .cons k0 v0 es, k, w => by
    rw [dictSet]
    by_cases hk : k0 = k
    · rw [if_pos hk, PyEntries.get, if_pos hk]
    · rw [if_neg hk, PyEntries.get, if_neg hk, get_dictSet_self es k w]

/-- `dictSet` then lookup of another key. -/
theorem get_dictSet_ne : ∀ (es : PyEntries) (k k1 : String) (w : PyVal),
    k ≠ k1 → (dictSet es k w).get k1 = es.get k1
  | .nil, k, k1, w, h => by
    simp [dictSet, PyEntries.get, h]
  | .cons k0 v0 es, k, k1, w, h => by
    rw [dictSet]
    by_cases hk : k0 = k
    · rw [if_pos hk, PyEntries.get, PyEntries.get]
      rcases eq_or_ne k0 k1 with h1 | h1
      · exact absurd (hk.symm.trans h1) h
      · rw [if_neg h1, if_neg h1]
    · rw [if_neg hk, PyEntries.get, PyEntries.get, get_dictSet_ne es k k1 w h]

/-- `dictSet` commutes with forgetting identities. -/
theorem dictSet_toPure : ∀ (es : PyEntries) (k : String) (w : PyVal),
    (dictSet es k w).toPure = dictSetP es.toPure k w.toPure
  | .nil, k, w => rfl
  | .cons k0 v0 es, k, w => by
    rw [dictSet]
    by_cases hk : k0 = k
    · rw [if_pos hk, PyEntries.toPure, PyEntries.toPure, dictSetP, if_pos hk]
    · rw [if_neg hk, PyEntries.toPure, PyEntries.toPure, dictSetP, if_neg hk,
        dictSet_toPure es k w]

/-- C2: `store` with a feature name outside `{hist, bin_edges}` always
fails with the invalid-argument error surfaced to the caller (nothing
is forwarded to storage: the result is the error, not a new storage
state), and with either valid name it succeeds, forwarding the data to
the storage collaborator tagged with kind `"vector"`. -/
theorem store_feature_validation (m : HistogramMarker)
    (type_ feature : String) (out : PyVal) (storage : List StoreCall) :
    (feature ≠ "hist" → feature ≠ "bin_edges" →
      m.store type_ feature out storage =
        .error ("Unknown feature: " ++ feature)) ∧
    (feature = "hist" ∨ feature = "bin_edges" →
      m.store type_ feature out storage =
        .ok (storage ++ [{ kind := "vector", payload := out.entries }])) := by
  constructor
  · intro h1 h2
    rw [HistogramMarker.store]
    rw [if_neg (by rintro (h | h) <;> [exact h1 h; exact h2 h])]
    rfl
  · intro h
    rw [HistogramMarker.store, if_pos h]
    rfl

/-- C2 witness: `store` with the invalid feature name `"histogram"`
errors without forwarding anything, and with `"hist"` forwards one
vector-kind call. -/
theorem store_feature_validation_witness :
    (HistogramMarker.store exampleMarker "VBM_GM" "histogram"
      (.dict 0 .nil) [] = .error "Unknown feature: histogram") ∧
    (HistogramMarker.store exampleMarker "VBM_GM" "hist"
      (.dict 0 .nil) [] =
      .ok [{ kind := "vector", payload := PyEntries.nil }]) :=
  ⟨(store_feature_validation exampleMarker "VBM_GM" "histogram"
      (.dict 0 .nil) []).1 (by decide) (by decide),
   (store_feature_validation exampleMarker "VBM_GM" "hist"
      (.dict 0 .nil) []).2 (Or.inl rfl)⟩

/-! ### Normalization lemmas for in-place updates -/
/-- Mutating a dict at its own identity, when that identity is not
shared by any entry below it, is the entry update. -/
theorem setAt_root (t : ℕ) (k : String) (w : PyVal) (es : PyEntries)
    (h : t ∉ es.ids) :
    setAt t k w (.dict t es) = .dict t (dictSet es k w) := by
  rw [setAt, if_pos rfl, setAtE_not_mem t k w es h]

theorem popAt_root (t : ℕ) (k : String) (es : PyEntries)
    (h : t ∉ es.ids) :
    popAt t k (.dict t es) = .dict t (dictPop es k) := by
  rw [popAt, if_pos rfl, popAtE_not_mem t k es h]

theorem setAt_dict_ne (t : ℕ) (k : String) (w : PyVal) (i : ℕ)
    (es : PyEntries) (h : i ≠ t) :
    setAt t k w (.dict i es) = .dict i (setAtE t k w es) := by
  rw [setAt, if_neg h]

/-- Mutation distributes over a completed entry update. -/
theorem setAtE_dictSet (t : ℕ) (k : String) (w : PyVal) :
    ∀ (es : PyEntries) (k1 : String) (v : PyVal),
      setAtE t k w (dictSet es k1 v) =
        dictSet (setAtE t k w es) k1 (setAt t k w v)
  | .nil, k1, v => by rw [dictSet, setAtE, setAtE, setAtE, dictSet]
  | .cons k0 v0 es, k1, v => by
    rw [dictSet]
    by_cases hk : k0 = k1
    · rw [if_pos hk, setAtE, setAtE, dictSet, if_pos hk]
    · rw [if_neg hk, setAtE, setAtE, dictSet, if_neg hk,
        setAtE_dictSet t k w es k1 v]

/-- The feature-loop body, normalized: the deep copies and the three
in-place updates produce `pfFdc`, which is then stored (when a storage
collaborator is present) or written into `out[type_]`. -/
theorem processFeature_norm (m : HistogramMarker) (type_ : String)
    (b : Bool) (tmi : ℕ) (tmes : PyEntries) (k : String) (ffi : ℕ)
    (ffes : PyEntries) (out : PyVal) (st : FTState) :
    processFeature m type_ b (.dict tmi tmes) k (.dict ffi ffes) out st =
      if b then
        (m.store type_ k (pfFdc m k ffes tmes st.ctr) st.stores).map
          (fun calls =>
            (out, { pfState m k ffes tmes st with stores := calls }))
      else
        match out.get type_ with
        | some inner =>
          .ok (setAt inner.rootId k (pfFdc m k ffes tmes st.ctr) out,
            { pfState m k ffes tmes st with
              muts := (pfState m k ffes tmes st).muts ++
                [.set inner.rootId k (pfFdc m k ffes tmes st.ctr)] })
        | none => .error "KeyError: type" := by
  have hfd : ∀ i ∈ (deepcopyE ffes (st.ctr + 1)).1.ids,
      st.ctr + 1 ≤ i ∧ i < pfC1 ffes st.ctr :=
    deepcopyE_ids ffes (st.ctr + 1)
  have hc1 : st.ctr + 1 ≤ pfC1 ffes st.ctr := deepcopyE_ctr_le ffes (st.ctr + 1)
  have hmc : ∀ i ∈ (deepcopyE tmes (pfC1 ffes st.ctr + 1)).1.ids,
      pfC1 ffes st.ctr + 1 ≤ i ∧ i < pfC2 ffes tmes st.ctr :=
    deepcopyE_ids tmes (pfC1 ffes st.ctr + 1)
  have hc2 : pfC1 ffes st.ctr + 1 ≤ pfC2 ffes tmes st.ctr :=
    deepcopyE_ctr_le tmes (pfC1 ffes st.ctr + 1)
  have hn1 : st.ctr ∉ (deepcopyE ffes (st.ctr + 1)).1.ids := by
    intro hmem
    have := (hfd _ hmem).1
    omega
  have hn2 : pfC1 ffes st.ctr ∉ (deepcopyE ffes (st.ctr + 1)).1.ids := by
    intro hmem
    have := (hfd _ hmem).2
    omega
  have hn3 : pfC1 ffes st.ctr ∉
      (deepcopyE tmes (pfC1 ffes st.ctr + 1)).1.ids := by
    intro hmem
    have := (hmc _ hmem).1
    omega
  have hn4 : pfC2 ffes tmes st.ctr ∉ (deepcopyE ffes (st.ctr + 1)).1.ids := by
    intro hmem
    have := (hfd _ hmem).2
    omega
  have hn5 : pfC2 ffes tmes st.ctr ∉
      (deepcopyE tmes (pfC1 ffes st.ctr + 1)).1.ids := by
    intro hmem
    have := (hmc _ hmem).2
    omega
  have hne1 : st.ctr ≠ pfC1 ffes st.ctr := by omega
  have hne2 : st.ctr ≠ pfC2 ffes tmes st.ctr := by omega
  have hne3 : pfC1 ffes st.ctr ≠ pfC2 ffes tmes st.ctr := by omega
  have hfold1 : (deepcopyE ffes (st.ctr + 1)).2 = pfC1 ffes st.ctr := rfl
  have hfold2 : (deepcopyE tmes (pfC1 ffes st.ctr + 1)).2 =
      pfC2 ffes tmes st.ctr := rfl
  rw [processFeature]
  simp only [deepcopy, PyVal.rootId]
  rw [setAt_root _ _ _ _ hn1]
  rw [hfold1, hfold2]
  simp only [updateMetaMarkerDict]
  rw [setAt_dict_ne _ _ _ _ _ hne1, setAtE_dictSet,
    setAtE_not_mem _ _ _ _ hn2, setAt_root _ _ _ _ hn3]
  rw [show ∀ es : PyEntries, PyVal.get (.dict st.ctr es) "meta" = es.get "meta"
    from fun es => rfl]
  rw [get_dictSet_self]
  simp only [Option.bind]
  rw [show ∀ (i : ℕ) (es : PyEntries),
      PyVal.get (.dict i es) "marker" = es.get "marker" from fun i es => rfl]
  rw [get_dictSet_self]
  simp only [Option.bind, PyVal.get, PyEntries.get, if_pos rfl, if_true]
  rw [setAt_dict_ne _ _ _ _ _ hne2, setAtE_dictSet,
    setAtE_not_mem _ _ _ _ hn4, setAt_dict_ne _ _ _ _ _ hne3,
    setAtE_dictSet, setAtE_not_mem _ _ _ _ hn5,
    setAt_root _ _ _ _ (by rw [PyEntries.ids, PyVal.ids, PyEntries.ids,
      PyVal.ids, PyEntries.ids]; simp)]
  rfl

theorem computeOutputDict_eq (bins : ℕ) (d : List ℚ) :
    computeOutputDict bins d =
      [("hist", histFeature bins d), ("bin_edges", edgesFeature bins d)] := rfl

/-- A value looked up in a dict only has identities of that dict. -/
theorem get_ids_subset_val (v : PyVal) (k : String) (w : PyVal)
    (h : v.get k = some w) : ∀ i ∈ w.ids, i ∈ v.ids := by
  match v with
  | .atom _ => rw [PyVal.get] at h; cases h
  | .dict j es =>
    rw [PyVal.get] at h
    intro i hi
    rw [PyVal.ids]
    exact List.mem_cons_of_mem j (get_ids_subset es k w h i hi)

/-- Every identity inside a finished per-feature value is at or above
the counter it was built from. -/
theorem pfFdc_ids (m : HistogramMarker) (k : String) (ffes tmes : PyEntries)
    (c : ℕ) : ∀ i ∈ (pfFdc m k ffes tmes c).ids, c ≤ i := by
  intro i hi
  rw [pfFdc, PyVal.ids] at hi
  rcases List.mem_cons.mp hi with rfl | hi
  · exact le_refl _
  rcases dictSet_ids_subset _ _ _ i hi with hi | hi
  · exact le_trans (Nat.le_succ c) (deepcopyE_ids ffes (c + 1) i hi).1
  rw [PyVal.ids] at hi
  have hc1 : c + 1 ≤ pfC1 ffes c := deepcopyE_ctr_le ffes (c + 1)
  rcases List.mem_cons.mp hi with rfl | hi
  · omega
  rcases dictSet_ids_subset _ _ _ i hi with hi | hi
  · have := (deepcopyE_ids tmes (pfC1 ffes c + 1) i hi).1
    omega
  · rw [pfMarker2, PyVal.ids, PyEntries.ids, PyVal.ids, PyEntries.ids,
      PyVal.ids, PyEntries.ids] at hi
    have hc2 : pfC1 ffes c + 1 ≤ pfC2 ffes tmes c :=
      deepcopyE_ctr_le tmes (pfC1 ffes c + 1)
    simp at hi
    omega

/-- All three per-feature mutations target fresh identities. -/
theorem pfMuts_targets (m : HistogramMarker) (k : String)
    (ffes tmes : PyEntries) (c : ℕ) :
    ∀ mu ∈ pfMuts m k ffes tmes c, c ≤ mu.target := by
  intro mu hmu
  have hc1 : c + 1 ≤ pfC1 ffes c := deepcopyE_ctr_le ffes (c + 1)
  have hc2 : pfC1 ffes c + 1 ≤ pfC2 ffes tmes c :=
    deepcopyE_ctr_le tmes (pfC1 ffes c + 1)
  rw [pfMuts, List.mem_cons, List.mem_cons, List.mem_singleton] at hmu
  rcases hmu with rfl | rfl | rfl
  · rw [Mut.target]
  · rw [Mut.target]; omega
  · rw [Mut.target]; omega

/-- Running the Python-level `compute`: two fresh inner dicts and the
fresh outer dict over the typed result. -/
theorem computePy_run (m : HistogramMarker) (env : Env PyVal)
    (t_input : PyVal) (extra : PyVal) (img : NiftiImage) (c : ℕ)
    (h2 : t_input.get "data" = some (.atom (.aImg img))) :
    computePy m env t_input (some extra) c =
      .ok (.dict (c + 2)
        (.cons "hist"
          (featureEntryPy c (histFeature m.bins
            (m.compute env { data := img } (some extra)).2.dataUsed))
          (.cons "bin_edges"
            (featureEntryPy (c + 1) (edgesFeature m.bins
              (m.compute env { data := img } (some extra)).2.dataUsed))
            .nil)),
        c + 3, (m.compute env { data := img } (some extra)).2) := by
  rw [computePy]
  simp only [h2]
  rw [compute_fst_eq, computeOutputDict_eq]
  rfl

/-- Symbolic execution of `_fit_transform` with no storage
collaborator, on an input holding a `VBM_GM` record with an image and a
metadata dict, all of whose object identities lie below the fresh
counter `c0`. -/
theorem fit_transform_noStorage_run (m : HistogramMarker) (env : Env PyVal)
    (ri : ℕ) (res : PyEntries) (t_input : PyVal) (img : NiftiImage)
    (mid : ℕ) (mes : PyEntries) (c0 : ℕ)
    (hres : ∀ i ∈ (PyVal.dict ri res).ids, i < c0)
    (h1 : res.get "VBM_GM" = some t_input)
    (h2 : t_input.get "data" = some (.atom (.aImg img)))
    (h3 : t_input.get "meta" = some (.dict mid mes)) :
    m.fit_transform env (.dict ri res) false c0 =
      .ok (ftOutNoStorage m
        ((m.compute env { data := img } (some (ftExtra res c0))).2.dataUsed)
        mes c0,
      ftStNoStorage m t_input (ftExtra res c0)
        ((m.compute env { data := img } (some (ftExtra res c0))).2.dataUsed)
        mes c0) := by
  have hpop : (c0 + 1) ∉ res.ids := by
    intro hm
    have := hres _ (by rw [PyVal.ids]; exact List.mem_cons_of_mem ri hm)
    omega
  have hmesids : ∀ i ∈ mes.ids, i < c0 := by
    intro i hi
    refine hres i ?_
    have h1v : (PyVal.dict ri res).get "VBM_GM" = some t_input := by
      rw [PyVal.get]; exact h1
    exact get_ids_subset_val _ _ _ h1v i
      (get_ids_subset_val _ _ _ h3 i
        (by rw [PyVal.ids]; exact List.mem_cons_of_mem mid hi))
  have hmes2 : (c0 + 2) ∉ mes.ids := by
    intro hm; have := hmesids _ hm; omega
  have hfdcH : (c0 + 6) ∉
      (PyEntries.cons "hist"
        (ftFdc m "hist" (histFeature m.bins
          ((m.compute env { data := img }
            (some (ftExtra res c0))).2.dataUsed)) mes (c0 + 7))
        .nil).ids := by
    intro hm
    rw [PyEntries.ids, PyEntries.ids, List.append_nil] at hm
    have := pfFdc_ids _ _ _ _ _ _ hm
    omega
  rw [HistogramMarker.fit_transform]
  simp only [HistogramMarker.on]
  rw [processTypes, processType]
  rw [show (PyVal.dict ri res).get "VBM_GM" = some t_input from by
    rw [PyVal.get]; exact h1]
  dsimp only
  simp only [PyVal.entries]
  rw [popAt_root _ _ _ hpop]
  rw [h3]
  dsimp only
  simp only [show c0 + 1 + 1 = c0 + 2 from rfl,
    show c0 + 1 + 2 = c0 + 3 from rfl]
  rw [setAt_root _ _ _ _ hmes2]
  rw [show PyVal.dict (c0 + 1) (dictPop res "VBM_GM") = ftExtra res c0
    from rfl]
  rw [computePy_run m env t_input _ img _ h2]
  dsimp only
  simp only [show c0 + 3 + 2 = c0 + 5 from rfl,
    show c0 + 3 + 3 = c0 + 6 from rfl, show c0 + 3 + 1 = c0 + 4 from rfl]
  rw [if_neg (by decide : ¬ ((false : Bool) = true))]
  simp only [PyVal.rootId, PyVal.entries]
  rw [setAt_root _ _ _ _ (by rw [PyEntries.ids]; simp)]
  rw [dictSet]
  simp only [show c0 + 6 + 1 = c0 + 7 from rfl]
  simp only [featureEntryPy]
  rw [processFeatures, processFeature_norm]
  rw [if_neg (by decide : ¬ ((false : Bool) = true))]
  simp only [PyVal.get, PyEntries.get, if_pos rfl, if_true]
  simp only [PyVal.rootId, Except.bind]
  rw [show dictSet mes "type" (.atom (.aStr "VBM_GM")) = ftTmes mes
    from rfl]
  rw [setAt_dict_ne _ _ _ _ _ (by omega : c0 ≠ c0 + 6)]
  rw [setAtE, setAtE]
  rw [setAt_root _ _ _ _ (by rw [PyEntries.ids]; simp)]
  rw [dictSet]
  rw [show pfFdc m "hist"
      (featureEntries (histFeature m.bins
        ((m.compute env { data := img } (some (ftExtra res c0))).2.dataUsed)))
      (ftTmes mes) (c0 + 7) =
    ftFdc m "hist" (histFeature m.bins
      ((m.compute env { data := img } (some (ftExtra res c0))).2.dataUsed))
      mes (c0 + 7) from rfl]
  rw [processFeatures, processFeature_norm]
  rw [if_neg (by decide : ¬ ((false : Bool) = true))]
  simp only [PyVal.get, PyEntries.get, if_pos rfl, if_true]
  simp only [PyVal.rootId, Except.bind]
  rw [setAt_dict_ne _ _ _ _ _ (by omega : c0 ≠ c0 + 6)]
  rw [setAtE, setAtE]
  rw [setAt_root _ _ _ _ hfdcH]
  rw [dictSet, if_neg (by decide : ¬ ("hist" = "bin_edges")), dictSet]
  rw [processFeatures]
  simp only [Except.bind]
  rw [processTypes]
  rfl

/-- `store` on a valid feature name: one vector-kind call appended. -/
theorem store_valid_eq (m : HistogramMarker) (type_ k : String)
    (out : PyVal) (storage : List StoreCall)
    (hk : k = "hist" ∨ k = "bin_edges") :
    m.store type_ k out storage =
      .ok (storage ++ [{ kind := "vector", payload := out.entries }]) := by
  rw [HistogramMarker.store, if_pos hk]
  rfl

/-- Symbolic execution of `_fit_transform` with a storage collaborator:
the result mapping stays empty and both features are forwarded to
storage. -/
theorem fit_transform_storage_run (m : HistogramMarker) (env : Env PyVal)
    (ri : ℕ) (res : PyEntries) (t_input : PyVal) (img : NiftiImage)
    (mid : ℕ) (mes : PyEntries) (c0 : ℕ)
    (hres : ∀ i ∈ (PyVal.dict ri res).ids, i < c0)
    (h1 : res.get "VBM_GM" = some t_input)
    (h2 : t_input.get "data" = some (.atom (.aImg img)))
    (h3 : t_input.get "meta" = some (.dict mid mes)) :
    m.fit_transform env (.dict ri res) true c0 =
      .ok (.dict c0 .nil,
      ftStStorage m t_input (ftExtra res c0)
        ((m.compute env { data := img } (some (ftExtra res c0))).2.dataUsed)
        mes c0) := by
  have hpop : (c0 + 1) ∉ res.ids := by
    intro hm
    have := hres _ (by rw [PyVal.ids]; exact List.mem_cons_of_mem ri hm)
    omega
  have hmesids : ∀ i ∈ mes.ids, i < c0 := by
    intro i hi
    refine hres i ?_
    have h1v : (PyVal.dict ri res).get "VBM_GM" = some t_input := by
      rw [PyVal.get]; exact h1
    exact get_ids_subset_val _ _ _ h1v i
      (get_ids_subset_val _ _ _ h3 i
        (by rw [PyVal.ids]; exact List.mem_cons_of_mem mid hi))
  have hmes2 : (c0 + 2) ∉ mes.ids := by
    intro hm; have := hmesids _ hm; omega
  rw [HistogramMarker.fit_transform]
  simp only [HistogramMarker.on]
  rw [processTypes, processType]
  rw [show (PyVal.dict ri res).get "VBM_GM" = some t_input from by
    rw [PyVal.get]; exact h1]
  dsimp only
  simp only [PyVal.entries]
  rw [popAt_root _ _ _ hpop]
  rw [h3]
  dsimp only
  simp only [show c0 + 1 + 1 = c0 + 2 from rfl,
    show c0 + 1 + 2 = c0 + 3 from rfl]
  rw [setAt_root _ _ _ _ hmes2]
  rw [show PyVal.dict (c0 + 1) (dictPop res "VBM_GM") = ftExtra res c0
    from rfl]
  rw [computePy_run m env t_input _ img _ h2]
  dsimp only
  simp only [show c0 + 3 + 2 = c0 + 5 from rfl,
    show c0 + 3 + 3 = c0 + 6 from rfl, show c0 + 3 + 1 = c0 + 4 from rfl]
  simp only [if_true]
  simp only [PyVal.entries, featureEntryPy]
  rw [processFeatures, processFeature_norm]
  simp only [if_true]
  rw [show dictSet mes "type" (.atom (.aStr "VBM_GM")) = ftTmes mes
    from rfl]
  rw [store_valid_eq _ _ _ _ _ (Or.inl rfl)]
  simp only [Except.map, Except.bind]
  rw [processFeatures, processFeature_norm]
  simp only [if_true]
  rw [store_valid_eq _ _ _ _ _ (Or.inr rfl)]
  simp only [Except.map, Except.bind]
  rw [processFeatures]
  simp only [Except.bind]
  rw [processTypes]
  rfl

theorem pfC2_ge (ffes tmes : PyEntries) (c : ℕ) : c + 2 ≤ pfC2 ffes tmes c := by
  have hc1 : c + 1 ≤ pfC1 ffes c := deepcopyE_ctr_le ffes (c + 1)
  have hc2 : pfC1 ffes c + 1 ≤ pfC2 ffes tmes c :=
    deepcopyE_ctr_le tmes (pfC1 ffes c + 1)
  omega

theorem pfFdc_get_meta (m : HistogramMarker) (k : String)
    (ffes tmes : PyEntries) (c : ℕ) :
    (pfFdc m k ffes tmes c).get "meta" = some (pfMeta m k ffes tmes c) := by
  rw [pfFdc, PyVal.get, get_dictSet_self, pfMeta]

/-- Every identity inside the attached meta dict is at or above the
counter the feature was built from. -/
theorem pfMeta_ids (m : HistogramMarker) (k : String) (ffes tmes : PyEntries)
    (c : ℕ) : ∀ i ∈ (pfMeta m k ffes tmes c).ids, c ≤ i := by
  intro i hi
  have hc1 : c + 1 ≤ pfC1 ffes c := deepcopyE_ctr_le ffes (c + 1)
  have hc2 : pfC1 ffes c + 1 ≤ pfC2 ffes tmes c :=
    deepcopyE_ctr_le tmes (pfC1 ffes c + 1)
  rw [pfMeta, PyVal.ids] at hi
  rcases List.mem_cons.mp hi with rfl | hi
  · omega
  rcases dictSet_ids_subset _ _ _ i hi with hi | hi
  · have := (deepcopyE_ids tmes (pfC1 ffes c + 1) i hi).1
    omega
  · rw [pfMarker2, PyVal.ids, PyEntries.ids, PyVal.ids, PyEntries.ids,
      PyVal.ids, PyEntries.ids] at hi
    simp at hi
    omega

/-- The identity-free value of the attached metadata. -/
theorem pfMeta_toPure (m : HistogramMarker) (k : String)
    (fe : FeatureEntry) (mes : PyEntries) (c : ℕ) :
    (pfMeta m k (featureEntries fe) (ftTmes mes) c).toPure =
      expectedMetaPure m k mes := by
  rw [pfMeta, PyVal.toPure, dictSet_toPure, deepcopyE_toPure, ftTmes,
    dictSet_toPure, expectedMetaPure, pfMarker2, PyVal.toPure]
  rfl

/-- The identity-free value of a finished output feature. -/
theorem ftFdc_toPure (m : HistogramMarker) (k : String) (fe : FeatureEntry)
    (mes : PyEntries) (c : ℕ) :
    (ftFdc m k fe mes c).toPure = expectedFeaturePure m k fe mes := by
  rw [ftFdc, pfFdc, PyVal.toPure, dictSet_toPure, deepcopyE_toPure,
    expectedFeaturePure]
  have : (PyVal.dict (pfC1 (featureEntries fe) c)
      (dictSet (deepcopyE (ftTmes mes) (pfC1 (featureEntries fe) c + 1)).1
        "marker"
        (pfMarker2 m k (pfC2 (featureEntries fe) (ftTmes mes) c)))).toPure =
      expectedMetaPure m k mes :=
    pfMeta_toPure m k fe mes c
  rw [← this]

/-- Every mutation recorded by the no-storage run targets a fresh
identity. -/
theorem ftMutsNoStorage_targets (m : HistogramMarker) (d : List ℚ)
    (mes : PyEntries) (c0 : ℕ) :
    ∀ mu ∈ ftMutsNoStorage m d mes c0, c0 ≤ mu.target := by
  intro mu hmu
  have hg1 := pfC2_ge (featureEntries (histFeature m.bins d)) (ftTmes mes)
    (c0 + 7)
  rw [ftMutsNoStorage] at hmu
  simp only [List.mem_append] at hmu
  rcases hmu with ((((hmu | hmu) | hmu) | hmu) | hmu)
  · rw [List.mem_cons, List.mem_cons, List.mem_singleton] at hmu
    rcases hmu with rfl | rfl | rfl <;> rw [Mut.target] <;> omega
  · have := pfMuts_targets _ _ _ _ _ _ hmu
    omega
  · rw [List.mem_singleton] at hmu
    subst hmu
    rw [Mut.target]
    omega
  · have := pfMuts_targets _ _ _ _ _ _ hmu
    rw [ftCtr] at this
    omega
  · rw [List.mem_singleton] at hmu
    subst hmu
    rw [Mut.target]
    omega

/-- Every mutation recorded by the with-storage run targets a fresh
identity. -/
theorem ftMutsStorage_targets (m : HistogramMarker) (d : List ℚ)
    (mes : PyEntries) (c0 : ℕ) :
    ∀ mu ∈ ftMutsStorage m d mes c0, c0 ≤ mu.target := by
  intro mu hmu
  have hg1 := pfC2_ge (featureEntries (histFeature m.bins d)) (ftTmes mes)
    (c0 + 6)
  rw [ftMutsStorage] at hmu
  simp only [List.mem_append] at hmu
  rcases hmu with ((hmu | hmu) | hmu)
  · rw [List.mem_cons, List.mem_singleton] at hmu
    rcases hmu with rfl | rfl <;> rw [Mut.target] <;> omega
  · have := pfMuts_targets _ _ _ _ _ _ hmu
    omega
  · have := pfMuts_targets _ _ _ _ _ _ hmu
    rw [ftCtr] at this
    omega

/-- Two values whose identity sets lie on opposite sides of a bound are
immune to each other's in-place mutations. -/
theorem meta_independent_of_ids (mid : ℕ) (mes : PyEntries) (mv : PyVal)
    (c0 : ℕ) (hmeta : ∀ i ∈ (PyVal.dict mid mes).ids, i < c0)
    (hmv : ∀ i ∈ mv.ids, c0 ≤ i) :
    (∀ t ∈ mv.ids, ∀ (k : String) (w : PyVal),
      setAt t k w (.dict mid mes) = .dict mid mes ∧
      popAt t k (.dict mid mes) = .dict mid mes) ∧
    (∀ t ∈ (PyVal.dict mid mes).ids, ∀ (k : String) (w : PyVal),
      setAt t k w mv = mv ∧ popAt t k mv = mv) := by
  constructor
  · intro t ht k w
    have h1 : t ∉ (PyVal.dict mid mes).ids := by
      intro hm
      have := hmeta _ hm
      have := hmv _ ht
      omega
    exact ⟨setAt_not_mem _ _ _ _ h1, popAt_not_mem _ _ _ h1⟩
  · intro t ht k w
    have h1 : t ∉ mv.ids := by
      intro hm
      have := hmv _ hm
      have := hmeta _ ht
      omega
    exact ⟨setAt_not_mem _ _ _ _ h1, popAt_not_mem _ _ _ h1⟩

/-! ## Claim theorems for `_fit_transform` -/
/-- C10: `_fit_transform` never mutates its input mapping: every
in-place update it performs (the pop is on a shallow copy of the input,
the `type` tag goes onto a copy of the per-type metadata, the rest onto
deep copies and fresh dicts) targets a fresh object identity, so
replaying all recorded mutations against the input leaves it — and all
of its entries — unchanged. -/
theorem fit_transform_input_unchanged (m : HistogramMarker)
    (env : Env PyVal) (ri : ℕ) (res : PyEntries) (t_input : PyVal)
    (img : NiftiImage) (mid : ℕ) (mes : PyEntries) (c0 : ℕ) (b : Bool)
    (hres : ∀ i ∈ (PyVal.dict ri res).ids, i < c0)
    (h1 : res.get "VBM_GM" = some t_input)
    (h2 : t_input.get "data" = some (.atom (.aImg img)))
    (h3 : t_input.get "meta" = some (.dict mid mes)) :
    ∃ out st, m.fit_transform env (.dict ri res) b c0 = .ok (out, st) ∧
      applyMuts (.dict ri res) st.muts = .dict ri res := by
  cases b with
  | false =>
    refine ⟨_, _,
      fit_transform_noStorage_run m env ri res t_input img mid mes c0
        hres h1 h2 h3, ?_⟩
    apply applyMuts_not_mem
    intro mu hmu hmem
    have ht := ftMutsNoStorage_targets m _ mes c0 mu hmu
    have := hres _ hmem
    omega
  | true =>
    refine ⟨_, _,
      fit_transform_storage_run m env ri res t_input img mid mes c0
        hres h1 h2 h3, ?_⟩
    apply applyMuts_not_mem
    intro mu hmu hmem
    have ht := ftMutsStorage_targets m _ mes c0 mu hmu
    have := hres _ hmem
    omega

/-- C6: after `_fit_transform` (no storage), the metadata attached to
each output feature is a deep copy independent of the input's
metadata: their object-identity sets are disjoint, so any in-place
update (set or pop) on an object of one leaves the other unchanged, in
both directions. -/
theorem fit_transform_meta_independent (m : HistogramMarker)
    (env : Env PyVal) (ri : ℕ) (res : PyEntries) (t_input : PyVal)
    (img : NiftiImage) (mid : ℕ) (mes : PyEntries) (c0 : ℕ)
    (hres : ∀ i ∈ (PyVal.dict ri res).ids, i < c0)
    (h1 : res.get "VBM_GM" = some t_input)
    (h2 : t_input.get "data" = some (.atom (.aImg img)))
    (h3 : t_input.get "meta" = some (.dict mid mes)) :
    ∃ out st, m.fit_transform env (.dict ri res) false c0 = .ok (out, st) ∧
      ∀ f fv mv,
        ((out.get "VBM_GM").bind (fun inner => inner.get f)) = some fv →
        fv.get "meta" = some mv →
        (∀ t ∈ mv.ids, ∀ (k : String) (w : PyVal),
          setAt t k w (.dict mid mes) = .dict mid mes ∧
          popAt t k (.dict mid mes) = .dict mid mes) ∧
        (∀ t ∈ (PyVal.dict mid mes).ids, ∀ (k : String) (w : PyVal),
          setAt t k w mv = mv ∧ popAt t k mv = mv) := by
  have hmeta : ∀ i ∈ (PyVal.dict mid mes).ids, i < c0 := by
    intro i hi
    refine hres i ?_
    have h1v : (PyVal.dict ri res).get "VBM_GM" = some t_input := by
      rw [PyVal.get]; exact h1
    exact get_ids_subset_val _ _ _ h1v i (get_ids_subset_val _ _ _ h3 i hi)
  refine ⟨_, _,
    fit_transform_noStorage_run m env ri res t_input img mid mes c0
      hres h1 h2 h3, ?_⟩
  intro f fv mv hf hm
  rw [show (ftOutNoStorage m
      ((m.compute env { data := img } (some (ftExtra res c0))).2.dataUsed)
      mes c0).get "VBM_GM" = some (.dict (c0 + 6)
        (.cons "hist" (ftFdc m "hist" (histFeature m.bins
          ((m.compute env { data := img }
            (some (ftExtra res c0))).2.dataUsed)) mes (c0 + 7))
          (.cons "bin_edges" (ftFdc m "bin_edges" (edgesFeature m.bins
            ((m.compute env { data := img }
              (some (ftExtra res c0))).2.dataUsed)) mes
            (ftCtr (histFeature m.bins
              ((m.compute env { data := img }
                (some (ftExtra res c0))).2.dataUsed)) mes (c0 + 7) + 1))
            .nil)))
    from by rw [ftOutNoStorage, PyVal.get, PyEntries.get, if_pos rfl]] at hf
  simp only [Option.bind] at hf
  rw [PyVal.get, PyEntries.get] at hf
  by_cases hfh : "hist" = f
  · rw [if_pos hfh] at hf
    cases hf
    rw [ftFdc, pfFdc_get_meta] at hm
    cases hm
    refine meta_independent_of_ids mid mes _ c0 hmeta ?_
    intro i hi
    have := pfMeta_ids _ _ _ _ _ i hi
    omega
  · rw [if_neg hfh, PyEntries.get] at hf
    by_cases hfe : "bin_edges" = f
    · rw [if_pos hfe] at hf
      cases hf
      rw [ftFdc, pfFdc_get_meta] at hm
      cases hm
      have hg1 := pfC2_ge (featureEntries (histFeature m.bins
        ((m.compute env { data := img }
          (some (ftExtra res c0))).2.dataUsed))) (ftTmes mes) (c0 + 7)
      refine meta_independent_of_ids mid mes _ c0 hmeta ?_
      intro i hi
      have := pfMeta_ids _ _ _ _ _ i hi
      rw [ftCtr] at this
      omega
    · rw [if_neg hfe, PyEntries.get] at hf
      cases hf

/-- C5: the `_fit_transform` orchestration contract.  For the input's
applicable data type (`VBM_GM`, when present), `compute` is invoked
once, on the per-type record and the popped shallow copy of the input;
each output feature receives a deep copy of the metadata (its
identity-free value extends the input metadata with the `type` tag and
the marker metadata) with the feature name appended to the marker
metadata name; and the features are either all forwarded to the storage
collaborator as vector-kind calls with an empty result mapping
returned, or accumulated into the result mapping keyed by data type and
then feature name. -/
theorem fit_transform_orchestration (m : HistogramMarker)
    (env : Env PyVal) (ri : ℕ) (res : PyEntries) (t_input : PyVal)
    (img : NiftiImage) (mid : ℕ) (mes : PyEntries) (c0 : ℕ) (b : Bool)
    (hres : ∀ i ∈ (PyVal.dict ri res).ids, i < c0)
    (h1 : res.get "VBM_GM" = some t_input)
    (h2 : t_input.get "data" = some (.atom (.aImg img)))
    (h3 : t_input.get "meta" = some (.dict mid mes)) :
    ∃ out st, m.fit_transform env (.dict ri res) b c0 = .ok (out, st) ∧
      st.computeCalls = [(t_input, ftExtra res c0)] ∧
      (b = true →
        out.toPure = .dict .nil ∧
        st.stores.map StoreCall.kind = ["vector", "vector"] ∧
        ∃ p1 p2, st.stores.map StoreCall.payload = [p1, p2] ∧
          PureVal.dict p1.toPure = expectedFeaturePure m "hist"
            (histFeature m.bins ((m.compute env { data := img }
              (some (ftExtra res c0))).2.dataUsed)) mes ∧
          PureVal.dict p2.toPure = expectedFeaturePure m "bin_edges"
            (edgesFeature m.bins ((m.compute env { data := img }
              (some (ftExtra res c0))).2.dataUsed)) mes) ∧
      (b = false →
        st.stores = [] ∧
        ∃ inner, out.get "VBM_GM" = some inner ∧
          ∃ fh fe, inner.get "hist" = some fh ∧
            inner.get "bin_edges" = some fe ∧
            fh.toPure = expectedFeaturePure m "hist"
              (histFeature m.bins ((m.compute env { data := img }
                (some (ftExtra res c0))).2.dataUsed)) mes ∧
            fe.toPure = expectedFeaturePure m "bin_edges"
              (edgesFeature m.bins ((m.compute env { data := img }
                (some (ftExtra res c0))).2.dataUsed)) mes) := by
  cases b with
  | true =>
    refine ⟨_, _,
      fit_transform_storage_run m env ri res t_input img mid mes c0
        hres h1 h2 h3, rfl, ?_, fun h => absurd h (by decide)⟩
    intro _
    refine ⟨rfl, rfl, ?_⟩
    refine ⟨(ftFdc m "hist" (histFeature m.bins
        ((m.compute env { data := img }
          (some (ftExtra res c0))).2.dataUsed)) mes (c0 + 6)).entries,
      (ftFdc m "bin_edges" (edgesFeature m.bins
        ((m.compute env { data := img }
          (some (ftExtra res c0))).2.dataUsed)) mes
        (ftCtr (histFeature m.bins ((m.compute env { data := img }
          (some (ftExtra res c0))).2.dataUsed)) mes (c0 + 6) + 1)).entries,
      rfl, ?_, ?_⟩
    · exact ftFdc_toPure m "hist" _ mes (c0 + 6)
    · exact ftFdc_toPure m "bin_edges" _ mes _
  | false =>
    refine ⟨_, _,
      fit_transform_noStorage_run m env ri res t_input img mid mes c0
        hres h1 h2 h3, rfl, fun h => absurd h (by decide), ?_⟩
    intro _
    refine ⟨rfl,
      .dict (c0 + 6)
        (.cons "hist" (ftFdc m "hist" (histFeature m.bins
          ((m.compute env { data := img }
            (some (ftExtra res c0))).2.dataUsed)) mes (c0 + 7))
          (.cons "bin_edges" (ftFdc m "bin_edges" (edgesFeature m.bins
            ((m.compute env { data := img }
              (some (ftExtra res c0))).2.dataUsed)) mes
            (ftCtr (histFeature m.bins ((m.compute env { data := img }
              (some (ftExtra res c0))).2.dataUsed)) mes (c0 + 7) + 1))
            .nil)),
      ?_,
      ftFdc m "hist" (histFeature m.bins
        ((m.compute env { data := img }
          (some (ftExtra res c0))).2.dataUsed)) mes (c0 + 7),
      ftFdc m "bin_edges" (edgesFeature m.bins
        ((m.compute env { data := img }
          (some (ftExtra res c0))).2.dataUsed)) mes
        (ftCtr (histFeature m.bins ((m.compute env { data := img }
          (some (ftExtra res c0))).2.dataUsed)) mes (c0 + 7) + 1),
      ?_, ?_, ?_, ?_⟩
    · rw [ftOutNoStorage, PyVal.get, PyEntries.get, if_pos rfl]
    · rw [PyVal.get, PyEntries.get, if_pos rfl]
    · rw [PyVal.get, PyEntries.get, if_neg (by decide), PyEntries.get,
        if_pos rfl]
    · exact ftFdc_toPure m "hist" _ mes (c0 + 7)
    · exact ftFdc_toPure m "bin_edges" _ mes _

theorem examplePyInput_ids : ∀ i ∈ examplePyInput.ids, i < 3 := by
  have h : examplePyInput.ids = [0, 1, 2] := by
    simp [examplePyInput, examplePyEntries, exampleTInput,
      exampleMetaEntries, PyVal.ids, PyEntries.ids]
  rw [h]
  intro i hi
  simp only [List.mem_cons, List.not_mem_nil, or_false] at hi
  rcases hi with rfl | rfl | rfl <;> omega

/-- C10 witness: on the concrete example data object, `_fit_transform`
succeeds and replaying its recorded mutations leaves the input
unchanged. -/
theorem fit_transform_input_unchanged_witness :
    ∃ out st,
      exampleMarker.fit_transform examplePyEnv examplePyInput false 3 =
        .ok (out, st) ∧
      applyMuts examplePyInput st.muts = examplePyInput :=
  fit_transform_input_unchanged exampleMarker examplePyEnv 0
    examplePyEntries exampleTInput exampleImage 2 exampleMetaEntries 3 false
    examplePyInput_ids rfl rfl rfl

/-- C6 witness: on the concrete example data object, each output
feature's metadata is mutation-independent of the input metadata. -/
theorem fit_transform_meta_independent_witness :
    ∃ out st,
      exampleMarker.fit_transform examplePyEnv examplePyInput false 3 =
        .ok (out, st) ∧
      ∀ f fv mv,
        ((out.get "VBM_GM").bind (fun inner => inner.get f)) = some fv →
        fv.get "meta" = some mv →
        (∀ t ∈ mv.ids, ∀ (k : String) (w : PyVal),
          setAt t k w (.dict 2 exampleMetaEntries) =
            .dict 2 exampleMetaEntries ∧
          popAt t k (.dict 2 exampleMetaEntries) =
            .dict 2 exampleMetaEntries) ∧
        (∀ t ∈ (PyVal.dict 2 exampleMetaEntries).ids,
          ∀ (k : String) (w : PyVal),
          setAt t k w mv = mv ∧ popAt t k mv = mv) :=
  fit_transform_meta_independent exampleMarker examplePyEnv 0
    examplePyEntries exampleTInput exampleImage 2 exampleMetaEntries 3
    examplePyInput_ids rfl rfl rfl

/-- C5 witness: on the concrete example data object with a storage
collaborator, `_fit_transform` invokes `compute` once, forwards both
features as vector-kind store calls, and returns the empty mapping. -/
theorem fit_transform_orchestration_witness :
    ∃ out st,
      exampleMarker.fit_transform examplePyEnv examplePyInput true 3 =
        .ok (out, st) ∧
      st.computeCalls = [(exampleTInput, ftExtra examplePyEntries 3)] ∧
      (true = true →
        out.toPure = .dict .nil ∧
        st.stores.map StoreCall.kind = ["vector", "vector"] ∧
        ∃ p1 p2, st.stores.map StoreCall.payload = [p1, p2] ∧
          PureVal.dict p1.toPure = expectedFeaturePure exampleMarker "hist"
            (histFeature exampleMarker.bins
              ((exampleMarker.compute examplePyEnv { data := exampleImage }
                (some (ftExtra examplePyEntries 3))).2.dataUsed))
            exampleMetaEntries ∧
          PureVal.dict p2.toPure = expectedFeaturePure exampleMarker
            "bin_edges"
            (edgesFeature exampleMarker.bins
              ((exampleMarker.compute examplePyEnv { data := exampleImage }
                (some (ftExtra examplePyEntries 3))).2.dataUsed))
            exampleMetaEntries) ∧
      (true = false →
        st.stores = [] ∧
        ∃ inner, out.get "VBM_GM" = some inner ∧
          ∃ fh fe, inner.get "hist" = some fh ∧
            inner.get "bin_edges" = some fe ∧
            fh.toPure = expectedFeaturePure exampleMarker "hist"
              (histFeature exampleMarker.bins
                ((exampleMarker.compute examplePyEnv { data := exampleImage }
                  (some (ftExtra examplePyEntries 3))).2.dataUsed))
              exampleMetaEntries ∧
            fe.toPure = expectedFeaturePure exampleMarker "bin_edges"
              (edgesFeature exampleMarker.bins
                ((exampleMarker.compute examplePyEnv { data := exampleImage }
                  (some (ftExtra examplePyEntries 3))).2.dataUsed))
              exampleMetaEntries) :=
  fit_transform_orchestration exampleMarker examplePyEnv 0
    examplePyEntries exampleTInput exampleImage 2 exampleMetaEntries 3 true
    examplePyInput_ids rfl rfl rfl

end HistogramMarkerModel
